import Mathlib

/-!
# Hakko T12 soldering station: the control core of `Src/core.cpp`

A shallow embedding of the scheduler (`setup`, `loop`), of the acquisition
state machine (`adcStart`, `HAL_TIM_OC_DelayElapsedCallback`,
`HAL_ADC_ConvCpltCallback`) and of the globals they share.

Conventions of the embedding

* The file-scope variables `adc_mode`, `check_count`, `pMode`, the register
  `TIM2->CCR1` and the wiring stored in the mode objects form the record `Core`.
* Every call that leaves `core.cpp` (HAL, display, iron, configuration, the
  virtual methods of `MODE`) is recorded, in program order, in `Core.trace`.
  Every store to `TIM2->CCR1` is recorded as well.  What such a call returns
  is an argument of the embedded function (`rtm`, `step`, `connected`,
  `power`, the DMA buffer `buff`).
* A `MODE*` is an `Option MODE`; the null pointer is `none`.
* Each handler is one atomic step: preemption of `loop` by an interrupt in
  the middle of its body is not modelled.
-/

namespace HakkoT12

/-! ## Constants and types of `core.cpp` -/

/-- Number of activated ADC ranks, `#define ADC_CONV (2)`. -/
@[reducible] def ADC_CONV : Nat := 2

/-- Number of ADC conversion loops, `#define ADC_LOOPS (2)`. -/
@[reducible] def ADC_LOOPS : Nat := 2

/-- Size of the sample buffer, `#define ADC_BUFF_SZ (2*ADC_CONV*ADC_LOOPS)`. -/
@[reducible] def ADC_BUFF_SZ : Nat := 2 * ADC_CONV * ADC_LOOPS

/-- The acquisition state, `typedef enum { ADC_IDLE, ADC_CURRENT, ADC_TEMP } t_ADC_mode`. -/
inductive t_ADC_mode where
  | ADC_IDLE
  | ADC_CURRENT
  | ADC_TEMP
  deriving DecidableEq

/-- Upper limit of the duty, `const static uint16_t max_iron_pwm = 1960`. -/
def max_iron_pwm : Nat := 1960

/-- Probe duty, `const static uint16_t check_iron_pwm = 5`. -/
def check_iron_pwm : Nat := 5

/-- Probe period, `const static uint8_t check_period = 6`. -/
def check_period : Nat := 6

/-- The sixteen `MODE` instances declared at lines 36-51 of `core.cpp`. -/
inductive MODE where
  | standby_iron
  | work_iron
  | boost
  | select
  | activate
  | calib_auto
  | calib_manual
  | calib_menu
  | tune
  | fail
  | boost_setup
  | pid_tune
  | auto_pid_tune
  | about
  | main_menu
  | debug
  deriving DecidableEq

/-- Modelled from the spec: the type `CFG_STATUS` returned by the configuration
`init` is declared in a header that is absent; the spec lists the three
statuses Ok, NoTipConfigured and ReadError, and `setup` names the last two
`CFG_NO_TIP` and `CFG_READ_ERROR`. -/
inductive CFG_STATUS where
  | CFG_OK
  | CFG_NO_TIP
  | CFG_READ_ERROR
  deriving DecidableEq

/-- The timer a `TIM_HandleTypeDef` belongs to (`htim->Instance`). -/
inductive TIM_Instance where
  | TIM1
  | TIM2
  | TIM3
  | TIM4
  deriving DecidableEq

/-- The active channel of a timer handle (`htim->Channel`). -/
inductive HAL_TIM_ActiveChannel where
  | HAL_TIM_ACTIVE_CHANNEL_1
  | HAL_TIM_ACTIVE_CHANNEL_2
  | HAL_TIM_ACTIVE_CHANNEL_3
  | HAL_TIM_ACTIVE_CHANNEL_4
  | HAL_TIM_ACTIVE_CHANNEL_CLEARED
  deriving DecidableEq

/-- The three targets a mode is wired with: return mode, short press mode,
long press mode (comment at line 75). -/
structure Targets where
  ret : MODE
  short : MODE
  long : MODE
  deriving DecidableEq

/-- Observable actions of the core: calls to collaborators and stores to the
duty register, in the order the code performs them. -/
inductive Act where
  | dspl_init
  | iron_init
  | encoder_addButton
  | cfg_init
  | cfg_pidParams
  | iron_load
  | cfg_isBuzzerEnabled
  | buzz_activate
  | HAL_ADCEx_Calibration_Start (adc : Nat)
  | HAL_TIM_PWM_Start (channel : Nat)
  | HAL_TIM_OC_Start_IT (channel : Nat)
  | mode_setup (m ret short long : MODE)
  | errorMessage
  | HAL_Delay (ms : Nat)
  | mode_init (m : MODE)
  | cfg_getLowTemp
  | checkSWStatus
  | returnToMain (m : MODE)
  | mode_loop (m : MODE)
  | switchPower (enable : Bool)
  | write_CCR1 (v : Nat)
  | HAL_ADC_Start
  | HAL_ADCEx_MultiModeStart_DMA (len : Nat)
  | HAL_ADCEx_MultiModeStop_DMA
  | HAL_ADC_Stop
  | updateAmbient (v : Nat)
  | isIronConnected
  | power (t : Nat)
  | updateIronCurrent (v : Nat)
  deriving DecidableEq

/-- The sample buffer `volatile static uint16_t buff[ADC_BUFF_SZ]`. -/
abbrev Buff := Fin ADC_BUFF_SZ → Fin 65536

/-- The element `buff[i]`; every index the code uses is below `ADC_BUFF_SZ`. -/
def rd (buff : Buff) (i : Nat) : Nat :=
  if h : i < ADC_BUFF_SZ then (buff ⟨i, h⟩).val else 0

/-- A buffer given by the list of its elements (missing elements are 0). -/
def mkBuff (l : List (Fin 65536)) : Buff := fun i => l.getD i.val 0

/-- The mutable state of the core. -/
structure Core where
  /-- The variable `volatile static t_ADC_mode adc_mode`. -/
  adc_mode : t_ADC_mode
  /-- The variable `volatile static uint8_t check_count`. -/
  check_count : Nat
  /-- The duty register `TIM2->CCR1`. -/
  CCR1 : Nat
  /-- The variable `static MODE* pMode`. -/
  pMode : MODE
  /-- The targets stored in each mode object by `MODE::setup`. -/
  wiring : MODE → Option Targets
  /-- The actions performed so far. -/
  trace : List Act

/-- The state after static initialisation (lines 25-27 and 52): idle
acquisition, `check_count = 1`, `pMode = &standby_iron`; the duty register
has its reset value 0 and no mode is wired yet. -/
def core0 : Core :=
  { adc_mode := .ADC_IDLE, check_count := 1, CCR1 := 0,
    pMode := .standby_iron, wiring := fun _ => none, trace := [] }

/-- Record one action at the end of the trace. -/
def emit (a : Act) (s : Core) : Core :=
  { s with trace := s.trace ++ [a] }

/-- The store `TIM2->CCR1 = v`. -/
def set_CCR1 (v : Nat) (s : Core) : Core :=
  emit (.write_CCR1 v) { s with CCR1 := v }

/-- Modelled from the spec: `constrain` comes from the absent `tools.h`; the
spec says the computed duty is clamped to the range between the lower and
the upper bound handed to it. -/
def constrain (value lo hi : Nat) : Nat :=
  if value < lo then lo else if value > hi then hi else value

/-- Modelled from the spec: `MODE::setup` comes from the absent `mode.h`; it
wires a mode with its return, short press and long press targets. -/
def MODE_setup (m ret short long : MODE) (s : Core) : Core :=
  emit (.mode_setup m ret short long)
    { s with wiring := Function.update s.wiring m (some ⟨ret, short, long⟩) }

/-! ## `HW::init` and `setup` (lines 55-108) -/

/-- The method `HW::init`; `cfg_status` is what `cfg.init()` returns. -/
def HW_init (cfg_status : CFG_STATUS) (s : Core) : CFG_STATUS × Core :=
  let s := emit .dspl_init s
  let s := emit .iron_init s
  let s := emit .encoder_addButton s
  let s := emit .cfg_init s
  let cfg_init := cfg_status
  let s := emit .cfg_pidParams s
  let s := emit .iron_load s
  let s := emit .cfg_isBuzzerEnabled s
  let s := emit .buzz_activate s
  (cfg_init, s)

/-- The function `setup`; `cfg_status` is what `cfg.init()` returns. -/
def setup (cfg_status : CFG_STATUS) (s : Core) : Core :=
  let r := HW_init cfg_status s
  let cfg_init := r.1
  let s := r.2
  let s := emit (.HAL_ADCEx_Calibration_Start 1) s
  let s := emit (.HAL_ADCEx_Calibration_Start 2) s
  let s := emit (.HAL_TIM_PWM_Start 1) s
  let s := emit (.HAL_TIM_OC_Start_IT 3) s
  let s := emit (.HAL_TIM_OC_Start_IT 4) s
  let s := MODE_setup .standby_iron .select .work_iron .main_menu s
  let s := MODE_setup .work_iron .standby_iron .standby_iron .boost s
  let s := MODE_setup .boost .work_iron .work_iron .work_iron s
  let s := MODE_setup .select .standby_iron .activate .main_menu s
  let s := MODE_setup .activate .standby_iron .standby_iron .main_menu s
  let s := MODE_setup .calib_auto .standby_iron .standby_iron .standby_iron s
  let s := MODE_setup .calib_manual .calib_menu .standby_iron .standby_iron s
  let s := MODE_setup .calib_menu .standby_iron .standby_iron .standby_iron s
  let s := MODE_setup .tune .standby_iron .standby_iron .standby_iron s
  let s := MODE_setup .fail .standby_iron .standby_iron .standby_iron s
  let s := MODE_setup .boost_setup .main_menu .main_menu .standby_iron s
  let s := MODE_setup .pid_tune .standby_iron .standby_iron .standby_iron s
  let s := MODE_setup .auto_pid_tune .standby_iron .pid_tune .standby_iron s
  let s := MODE_setup .main_menu .standby_iron .standby_iron .standby_iron s
  let s := MODE_setup .about .standby_iron .standby_iron .debug s
  let s := MODE_setup .debug .standby_iron .standby_iron .standby_iron s
  let s :=
    match cfg_init with
    | .CFG_NO_TIP => { s with pMode := .activate }
    | .CFG_READ_ERROR =>
      let s := emit .errorMessage s
      let s := { s with pMode := .fail }
      MODE_setup .fail .fail .fail .fail s
    | _ => s
  let s := emit (.HAL_Delay 500) s
  emit (.mode_init s.pMode) s

/-! ## `loop` (lines 111-131) -/

/-- The function `loop`: `lowTemp` is what `core.cfg.getLowTemp()` returns,
`rtm` what `pMode->returnToMain()` returns and `step` what `pMode->loop()`
returns (`step` is consulted only when the call is made). -/
def loop (lowTemp : Nat) (rtm step : Option MODE) (s : Core) : Core :=
  let s := emit .cfg_getLowTemp s
  let s := if lowTemp > 0 then emit .checkSWStatus s else s
  let s := emit (.returnToMain s.pMode) s
  let new_mode := rtm
  if h : new_mode.isSome = true ∧ new_mode ≠ some s.pMode then
    let s := emit (.switchPower false) s
    let s := set_CCR1 0 s
    let s := { s with pMode := new_mode.get h.1 }
    emit (.mode_init s.pMode) s
  else
    let s := emit (.mode_loop s.pMode) s
    let new_mode := step
    if new_mode ≠ some s.pMode then
      let new_mode : MODE :=
        match new_mode with
        | none => .fail
        | some m => m
      let s := emit (.switchPower false) s
      let s := set_CCR1 0 s
      let s := { s with pMode := new_mode }
      emit (.mode_init s.pMode) s
    else s

/-! ## The acquisition state machine (lines 133-209) -/

/-- The function `adcStart`: the returned flag and the new state. -/
def adcStart (mode : t_ADC_mode) (s : Core) : Bool × Core :=
  if s.adc_mode ≠ .ADC_IDLE then
    (false, set_CCR1 0 s)
  else
    let s := emit .HAL_ADC_Start s
    let s := emit (.HAL_ADCEx_MultiModeStart_DMA (ADC_CONV * ADC_LOOPS)) s
    (true, { s with adc_mode := mode })

/-- The handler `HAL_TIM_OC_DelayElapsedCallback`. -/
def HAL_TIM_OC_DelayElapsedCallback (inst : TIM_Instance)
    (channel : HAL_TIM_ActiveChannel) (s : Core) : Core :=
  if inst = .TIM2 then
    if channel = .HAL_TIM_ACTIVE_CHANNEL_3 then
      if s.CCR1 ≠ 0 then (adcStart .ADC_CURRENT s).2 else s
    else if channel = .HAL_TIM_ACTIVE_CHANNEL_4 then
      (adcStart .ADC_TEMP s).2
    else s
  else s

/-- The loop of lines 175-178 from index `i` on, with the 32-bit
accumulators `iron_temp` and `ambient`; `i` is a `uint8_t`. -/
def tempLoop (buff : Buff) (i iron_temp ambient : Nat) : Nat × Nat :=
  if i < ADC_BUFF_SZ then
    tempLoop buff ((i + 2 * ADC_CONV) % 256)
      ((iron_temp + (rd buff (i + 1) + rd buff (i + 3))) % 2 ^ 32)
      ((ambient + rd buff (i + 2)) % 2 ^ 32)
  else (iron_temp, ambient)
termination_by ADC_BUFF_SZ - i
decreasing_by
  simp only [ADC_BUFF_SZ, ADC_CONV, ADC_LOOPS] at *
  omega

/-- The loop of lines 199-201 from index `i` on, with the 32-bit
accumulator `iron_curr`. -/
def currLoop (buff : Buff) (i iron_curr : Nat) : Nat :=
  if i < ADC_BUFF_SZ then
    currLoop buff ((i + 2 * ADC_CONV) % 256) ((iron_curr + rd buff i) % 2 ^ 32)
  else iron_curr
termination_by ADC_BUFF_SZ - i
decreasing_by
  simp only [ADC_BUFF_SZ, ADC_CONV, ADC_LOOPS] at *
  omega

/-- Lines 173-182: the rounded averages `(iron_temp, ambient)`. -/
def tempAverages (buff : Buff) : Nat × Nat :=
  let r := tempLoop buff 0 0 0
  let iron_temp := r.1
  let ambient := r.2
  let iron_temp := (iron_temp + ADC_LOOPS) % 2 ^ 32
  let iron_temp := iron_temp / (ADC_LOOPS * 2)
  let ambient := (ambient + ADC_LOOPS / 2) % 2 ^ 32
  let ambient := ambient / ADC_LOOPS
  (iron_temp, ambient)

/-- Lines 198-203: the rounded average `iron_curr`. -/
def currAverage (buff : Buff) : Nat :=
  let iron_curr := currLoop buff 0 0
  let iron_curr := (iron_curr + ADC_LOOPS / 2) % 2 ^ 32
  iron_curr / ADC_LOOPS

/-- Lines 185-189: from the old `check_count`, the new `check_count` and the
`uint8_t min_iron_pwm`; the pre-decrement wraps modulo 256. -/
def checkProbe (check_count : Nat) : Nat × Nat :=
  let min_iron_pwm := 0
  let check_count := (check_count + 255) % 256
  if check_count = 0 then (check_period, check_iron_pwm % 256)
  else (check_count, min_iron_pwm)

/-- The handler `HAL_ADC_ConvCpltCallback`: `buff` is the buffer as the DMA
left it, `connected` what `isIronConnected()` returns and `power t` what
`core.iron.power(t)` returns (stored in the `uint16_t iron_power`). -/
def HAL_ADC_ConvCpltCallback (buff : Buff) (connected : Bool)
    (power : Nat → Nat) (s : Core) : Core :=
  let s := emit .HAL_ADCEx_MultiModeStop_DMA s
  let s := emit .HAL_ADC_Stop s
  let s :=
    if s.adc_mode = .ADC_TEMP then
      let iron_temp := (tempAverages buff).1
      let ambient := (tempAverages buff).2
      let s := emit (.updateAmbient ambient) s
      let p := checkProbe s.check_count
      let s := { s with check_count := p.1 }
      let min_iron_pwm := p.2
      let s := emit .isIronConnected s
      if connected then
        let s := emit (.power iron_temp) s
        let iron_power := power iron_temp % 65536
        set_CCR1 (constrain iron_power min_iron_pwm max_iron_pwm) s
      else
        set_CCR1 min_iron_pwm s
    else if s.adc_mode = .ADC_CURRENT then
      let iron_curr := currAverage buff
      if s.CCR1 ≠ 0 then emit (.updateIronCurrent iron_curr) s else s
    else s
  { s with adc_mode := .ADC_IDLE }

/-! ## Events and runs -/

/-- What can happen to the core: a timer output-compare interrupt, the ADC
completion interrupt, or one iteration of the main loop. -/
inductive Event where
  | tim (inst : TIM_Instance) (channel : HAL_TIM_ActiveChannel)
  | cplt (buff : Buff) (connected : Bool) (power : Nat → Nat)
  | tick (lowTemp : Nat) (rtm step : Option MODE)

/-- The effect of one event. -/
def Event.apply (e : Event) (s : Core) : Core :=
  match e with
  | .tim inst channel => HAL_TIM_OC_DelayElapsedCallback inst channel s
  | .cplt buff connected power => HAL_ADC_ConvCpltCallback buff connected power s
  | .tick lowTemp rtm step => loop lowTemp rtm step s

/-- The effect of a sequence of events, first event first. -/
def run (evs : List Event) (s : Core) : Core :=
  evs.foldl (fun s e => e.apply s) s

/-- The channel-A event: output compare on TIM2 channel 3. -/
def chanA : Event := .tim .TIM2 .HAL_TIM_ACTIVE_CHANNEL_3

/-- The channel-B event: output compare on TIM2 channel 4. -/
def chanB : Event := .tim .TIM2 .HAL_TIM_ACTIVE_CHANNEL_4

/-- The value of the duty register after the actions `tr`, when it held `d`
before them. -/
def dutyAfter (d : Nat) (tr : List Act) : Nat :=
  tr.foldl (fun d a => match a with | .write_CCR1 v => v | _ => d) d

/-- The actions performed by the step `f` when started in state `s`. -/
def actsOf (f : Core → Core) (s : Core) : List Act :=
  (f s).trace.drop s.trace.length

/-- The test `new_mode && new_mode != pMode` of line 116. -/
def forced (rtm : Option MODE) (p : MODE) : Prop :=
  rtm.isSome = true ∧ rtm ≠ some p

/-- The actions every tick starts with (lines 112-115). -/
def tickHead (lowTemp : Nat) (p : MODE) : List Act :=
  [Act.cfg_getLowTemp] ++ (if lowTemp > 0 then [Act.checkSWStatus] else [])
    ++ [Act.returnToMain p]

/-- The answers of the collaborators during one temperature cycle: the
buffer the DMA delivers, what `isIronConnected()` returns and what
`power` returns. -/
structure TempInput where
  buff : Buff
  connected : Bool
  power : Nat → Nat

/-- A run of consecutive temperature cycles from state `s`, each one being
the channel-B event followed by the completion interrupt.  For every cycle
the result lists the state in which the completion handler starts and the
state in which it ends. -/
def tempRun : List TempInput → Core → List (Core × Core)
  | [], _ => []
  | x :: xs, s =>
    let s1 := chanB.apply s
    let s2 := HAL_ADC_ConvCpltCallback x.buff x.connected x.power s1
    (s1, s2) :: tempRun xs s2

/-- The duty that lines 190-196 command when the lower bound is `lo`. -/
def dutyWith (lo : Nat) (x : TempInput) : Nat :=
  if x.connected then
    constrain (x.power (tempAverages x.buff).1 % 65536) lo max_iron_pwm
  else lo

/-- The samples of the scenario in the specification, `[100,200,50,202]`,
as a buffer; the second loop of the buffer is left at 0. -/
def exBuff : Buff := mkBuff [100, 200, 50, 202]

/-- The samples of the scenario delivered by both conversion loops. -/
def exBuff2 : Buff := mkBuff [100, 200, 50, 202, 100, 200, 50, 202]

/-- A temperature cycle with the element connected and `power` answering 100. -/
def exOn : TempInput := ⟨exBuff, true, fun _ => 100⟩

/-- A temperature cycle with the element disconnected. -/
def exOff : TempInput := ⟨exBuff, false, fun t => t⟩

/-- The boot state with the acquisition in `ADC_TEMP`. -/
def coreTemp : Core := { core0 with adc_mode := .ADC_TEMP }

/-- The boot state with `check_count` freshly reset to `check_period`. -/
def coreFresh : Core := { core0 with check_count := check_period }

/-- The boot state with the duty register holding 100. -/
def corePowered : Core := { core0 with CCR1 := 100 }

/-- The events considered between the start of current sampling and its
completion: channel-B events and ticks. -/
def isMid (e : Event) : Bool :=
  match e with
  | .tim .TIM2 .HAL_TIM_ACTIVE_CHANNEL_4 => true
  | .tick _ _ _ => true
  | _ => false

/-- The answers a mode `m` with wiring `w` gives when it navigates only along
its wiring: no mode, the mode itself, or one of its three wired targets. -/
def allowed (w : MODE → Option Targets) (m : MODE) (o : Option MODE) : Prop :=
  o = none ∨ o = some m ∨
    ∃ t, w m = some t ∧ (o = some t.ret ∨ o = some t.short ∨ o = some t.long)

/-- A sequence of events in which every tick gets only null or `fail` as
answers. -/
def exLocked : List Event :=
  [Event.tick 0 none none, chanB, Event.tick 1 (some MODE.fail) (some MODE.fail)]

/-! ## The boost byte of the configuration record (`Inc/cfgtypes.h`) -/

/-- Modelled from the spec: the functions that pack and unpack the field
`uint8_t boost` of `struct s_config` are absent; the comment of
`cfgtypes.h` and the spec put the increment index in bits 7-4 and the
duration index in bits 3-0.  This is the packing of the pair `(n, m)` into
the byte. -/
def boostEncode (n m : Nat) : Nat :=
  (((n &&& 0x0f) <<< 4) ||| (m &&& 0x0f)) % 256

/-- Modelled from the spec: the increment index of a boost byte, its upper
four bits. -/
def boostIncIndex (boost : Nat) : Nat :=
  (boost >>> 4) &&& 0x0f

/-- Modelled from the spec: the duration index of a boost byte, its lower
four bits. -/
def boostDurIndex (boost : Nat) : Nat :=
  boost &&& 0x0f

/-- Modelled from the spec: the boost time in seconds, `(n+1)*5` for the
duration index `n` (comment of `cfgtypes.h`, lines 27-30). -/
def boostDuration (boost : Nat) : Nat :=
  (boostDurIndex boost + 1) * 5

/-- For each temperature completion of the run of `evs` from `s` (a
completion interrupt arriving in `ADC_TEMP`), in order, whether it is a probe
cycle, that is whether lines 186-189 set `min_iron_pwm` to `check_iron_pwm`. -/
def probeLog : List Event → Core → List Bool
  | [], _ => []
  | e :: es, s =>
    match e with
    | .cplt _ _ _ =>
      if s.adc_mode = .ADC_TEMP then
        decide ((checkProbe s.check_count).2 = check_iron_pwm) :: probeLog es (e.apply s)
      else probeLog es (e.apply s)
    | _ => probeLog es (e.apply s)

/-! ## Auxiliary facts -/

theorem rd_lt (buff : Buff) (i : Nat) : rd buff i < 65536 := by
  unfold rd
  split
  · exact (buff _).isLt
  · decide

theorem tempLoop_eq (buff : Buff) :
    tempLoop buff 0 0 0 =
      (rd buff 1 + rd buff 3 + rd buff 5 + rd buff 7, rd buff 2 + rd buff 6) := by
  have h1 := rd_lt buff 1
  have h2 := rd_lt buff 2
  have h3 := rd_lt buff 3
  have h5 := rd_lt buff 5
  have h6 := rd_lt buff 6
  have h7 := rd_lt buff 7
  rw [tempLoop, if_pos (by decide)]
  rw [tempLoop, if_pos (by decide)]
  rw [tempLoop, if_neg (by decide)]
  simp only [ADC_CONV, Nat.zero_add, Nat.reduceMul, Nat.reduceMod, Nat.reduceAdd,
    Prod.mk.injEq]
  constructor <;> omega

theorem currLoop_eq (buff : Buff) :
    currLoop buff 0 0 = rd buff 0 + rd buff 4 := by
  have h0 := rd_lt buff 0
  have h4 := rd_lt buff 4
  rw [currLoop, if_pos (by decide)]
  rw [currLoop, if_pos (by decide)]
  rw [currLoop, if_neg (by decide)]
  simp only [ADC_CONV, Nat.zero_add, Nat.reduceMul, Nat.reduceMod]
  omega

theorem tempAverages_eq (buff : Buff) :
    tempAverages buff =
      ((rd buff 1 + rd buff 3 + rd buff 5 + rd buff 7 + 2) / 4,
        (rd buff 2 + rd buff 6 + 1) / 2) := by
  have h1 := rd_lt buff 1
  have h2 := rd_lt buff 2
  have h3 := rd_lt buff 3
  have h5 := rd_lt buff 5
  have h6 := rd_lt buff 6
  have h7 := rd_lt buff 7
  simp only [tempAverages, tempLoop_eq, ADC_LOOPS, Prod.mk.injEq]
  constructor <;> omega

theorem currAverage_eq (buff : Buff) :
    currAverage buff = (rd buff 0 + rd buff 4 + 1) / 2 := by
  have h0 := rd_lt buff 0
  have h4 := rd_lt buff 4
  simp only [currAverage, currLoop_eq, ADC_LOOPS]
  omega


theorem loop_forced (lowTemp : Nat) (rtm step : Option MODE) (s : Core)
    (h : forced rtm s.pMode) :
    ∃ nm, rtm = some nm ∧ loop lowTemp rtm step s =
      { s with CCR1 := 0, pMode := nm,
               trace := s.trace ++ (tickHead lowTemp s.pMode ++
                 [.switchPower false, .write_CCR1 0, .mode_init nm]) } := by
  obtain ⟨h1, h2⟩ := h
  cases rtm with
  | none => simp at h1
  | some nm =>
    refine ⟨nm, rfl, ?_⟩
    have h3 : ¬ (nm = s.pMode) := fun e => h2 (by rw [e])
    by_cases hl : lowTemp > 0 <;> simp [loop, emit, set_CCR1, tickHead, hl, h3]

theorem loop_switch (lowTemp : Nat) (rtm step : Option MODE) (s : Core)
    (h : ¬ forced rtm s.pMode) (hs : step ≠ some s.pMode) :
    loop lowTemp rtm step s =
      { s with CCR1 := 0, pMode := step.getD .fail,
               trace := s.trace ++ (tickHead lowTemp s.pMode ++
                 [.mode_loop s.pMode, .switchPower false, .write_CCR1 0,
                  .mode_init (step.getD .fail)]) } := by
  unfold forced at h
  cases step with
  | none =>
    by_cases hl : lowTemp > 0 <;> simp [loop, emit, set_CCR1, tickHead, hl, h]
  | some m =>
    have h3 : ¬ (m = s.pMode) := fun e => hs (by rw [e])
    by_cases hl : lowTemp > 0 <;> simp [loop, emit, set_CCR1, tickHead, hl, h, h3]

theorem loop_stay (lowTemp : Nat) (rtm step : Option MODE) (s : Core)
    (h : ¬ forced rtm s.pMode) (hs : step = some s.pMode) :
    loop lowTemp rtm step s =
      { s with trace := s.trace ++ (tickHead lowTemp s.pMode ++ [.mode_loop s.pMode]) } := by
  unfold forced at h
  subst hs
  by_cases hl : lowTemp > 0 <;> simp [loop, emit, set_CCR1, tickHead, hl, h]

theorem actsOf_eq (f : Core → Core) (s : Core) (tr : List Act)
    (h : (f s).trace = s.trace ++ tr) : actsOf f s = tr := by
  simp [actsOf, h]

theorem mem_tickHead (lowTemp : Nat) (p : MODE) (a : Act) (h : a ∈ tickHead lowTemp p) :
    a = .cfg_getLowTemp ∨ a = .checkSWStatus ∨ a = .returnToMain p := by
  unfold tickHead at h
  by_cases hl : lowTemp > 0 <;> simp [hl] at h <;> tauto

theorem forced_iff (rtm : Option MODE) (p : MODE) :
    forced rtm p ↔ ∃ nm, rtm = some nm ∧ nm ≠ p := by
  unfold forced
  cases rtm with
  | none => simp
  | some m => simp

theorem not_forced_iff (rtm : Option MODE) (p : MODE) :
    ¬ forced rtm p ↔ (rtm = none ∨ rtm = some p) := by
  unfold forced
  cases rtm with
  | none => simp
  | some m => simp

/-- C1: when a tick installs a mode (the forced-return test of line 116
succeeds, or the step returns something other than the active mode), the
actions of the tick end with `switchPower(false)`, the store of 0 to
`TIM2->CCR1` and the `init` of the mode that is active after the tick; the
actions before them contain neither a store to the duty register nor an
`init`, so the register replayed up to the start of `init` holds 0. -/
theorem loop_cuts_power_before_init (lowTemp : Nat) (rtm step : Option MODE) (s : Core)
    (h : forced rtm s.pMode ∨ step ≠ some s.pMode) :
    ∃ pre : List Act,
      actsOf (loop lowTemp rtm step) s =
        pre ++ [Act.switchPower false, Act.write_CCR1 0,
                Act.mode_init (loop lowTemp rtm step s).pMode] ∧
      (∀ a ∈ pre, (∀ v, a ≠ Act.write_CCR1 v) ∧ (∀ m, a ≠ Act.mode_init m)) ∧
      dutyAfter s.CCR1 (pre ++ [Act.switchPower false, Act.write_CCR1 0]) = 0 ∧
      (loop lowTemp rtm step s).CCR1 = 0 := by
  by_cases hf : forced rtm s.pMode
  · obtain ⟨nm, _, e⟩ := loop_forced lowTemp rtm step s hf
    refine ⟨tickHead lowTemp s.pMode, ?_, ?_, ?_, ?_⟩
    · apply actsOf_eq
      simp [e]
    · intro a ha
      rcases mem_tickHead _ _ _ ha with r | r | r <;> subst r <;> simp
    · simp [dutyAfter, List.foldl_append]
    · rw [e]
  · have hs : step ≠ some s.pMode := by tauto
    have e := loop_switch lowTemp rtm step s hf hs
    refine ⟨tickHead lowTemp s.pMode ++ [Act.mode_loop s.pMode], ?_, ?_, ?_, ?_⟩
    · apply actsOf_eq
      simp [e]
    · intro a ha
      rw [List.mem_append] at ha
      rcases ha with ha | ha
      · rcases mem_tickHead _ _ _ ha with r | r | r <;> subst r <;> simp
      · rw [List.mem_singleton] at ha
        subst ha
        simp
    · simp [dutyAfter, List.foldl_append]
    · rw [e]

/-- C1 (witness): from the boot state, a tick whose forced-return target is
`work_iron` installs it after cutting the power. -/
theorem loop_cuts_power_before_init_witness :
    (forced (some MODE.work_iron) core0.pMode ∨ (none : Option MODE) ≠ some core0.pMode) ∧
    ∃ pre : List Act,
      actsOf (loop 0 (some MODE.work_iron) none) core0 =
        pre ++ [Act.switchPower false, Act.write_CCR1 0,
                Act.mode_init (loop 0 (some MODE.work_iron) none core0).pMode] ∧
      (∀ a ∈ pre, (∀ v, a ≠ Act.write_CCR1 v) ∧ (∀ m, a ≠ Act.mode_init m)) ∧
      dutyAfter core0.CCR1 (pre ++ [Act.switchPower false, Act.write_CCR1 0]) = 0 ∧
      (loop 0 (some MODE.work_iron) none core0).CCR1 = 0 :=
  ⟨Or.inr (by simp),
   loop_cuts_power_before_init 0 (some MODE.work_iron) none core0 (Or.inr (by simp))⟩

/-- C2: `adcStart(mode)` returns true and leaves `adc_mode = mode` exactly
when `adc_mode` was `ADC_IDLE`; otherwise it returns false, leaves
`adc_mode` as it was and its only action is the store of 0 to `TIM2->CCR1`. -/
theorem adcStart_accepted_iff_idle (mode : t_ADC_mode) (s : Core) :
    (((adcStart mode s).1 = true ∧ (adcStart mode s).2.adc_mode = mode) ↔
        s.adc_mode = t_ADC_mode.ADC_IDLE) ∧
    (s.adc_mode ≠ t_ADC_mode.ADC_IDLE →
      (adcStart mode s).1 = false ∧
      (adcStart mode s).2.adc_mode = s.adc_mode ∧
      (adcStart mode s).2.CCR1 = 0 ∧
      actsOf (fun t => (adcStart mode t).2) s = [Act.write_CCR1 0]) := by
  by_cases h : s.adc_mode = t_ADC_mode.ADC_IDLE
  · simp [adcStart, h, emit]
  · simp [adcStart, h, emit, set_CCR1, actsOf]

theorem chanB_idle (s : Core) (h : s.adc_mode = t_ADC_mode.ADC_IDLE) :
    chanB.apply s =
      { s with adc_mode := t_ADC_mode.ADC_TEMP,
               trace := s.trace ++ [Act.HAL_ADC_Start, Act.HAL_ADCEx_MultiModeStart_DMA 4] } := by
  simp [chanB, Event.apply, HAL_TIM_OC_DelayElapsedCallback, adcStart, h, emit, ADC_CONV,
    ADC_LOOPS]

theorem cplt_temp (buff : Buff) (connected : Bool) (power : Nat → Nat) (s : Core)
    (h : s.adc_mode = t_ADC_mode.ADC_TEMP) :
    HAL_ADC_ConvCpltCallback buff connected power s =
      { s with adc_mode := t_ADC_mode.ADC_IDLE,
               check_count := (checkProbe s.check_count).1,
               CCR1 := dutyWith (checkProbe s.check_count).2 ⟨buff, connected, power⟩,
               trace := s.trace ++
                 ([Act.HAL_ADCEx_MultiModeStop_DMA, Act.HAL_ADC_Stop,
                   Act.updateAmbient (tempAverages buff).2, Act.isIronConnected] ++
                  (if connected = true then [Act.power (tempAverages buff).1] else []) ++
                  [Act.write_CCR1
                    (dutyWith (checkProbe s.check_count).2 ⟨buff, connected, power⟩)]) } := by
  cases connected <;>
    simp [HAL_ADC_ConvCpltCallback, h, emit, set_CCR1, dutyWith]

theorem checkProbe_snd (c : Nat) :
    (checkProbe c).2 = if (c + 255) % 256 = 0 then check_iron_pwm else 0 := by
  by_cases h : (c + 255) % 256 = 0 <;> simp [checkProbe, h, check_iron_pwm]

theorem checkProbe_fst (c : Nat) :
    (checkProbe c).1 = if (c + 255) % 256 = 0 then check_period else (c + 255) % 256 := by
  by_cases h : (c + 255) % 256 = 0 <;> simp [checkProbe, h]

theorem constrain_bounds (v lo hi : Nat) (h : lo ≤ hi) :
    lo ≤ constrain v lo hi ∧ constrain v lo hi ≤ hi := by
  unfold constrain
  split_ifs <;> omega

theorem dutyWith_bounds (lo : Nat) (x : TempInput) (h : lo ≤ max_iron_pwm) :
    lo ≤ dutyWith lo x ∧ dutyWith lo x ≤ max_iron_pwm := by
  unfold dutyWith
  split
  · exact constrain_bounds _ _ _ h
  · exact ⟨le_refl _, h⟩

/-- C3 (amended): in a temperature completion with the element reported
connected the duty stored to `TIM2->CCR1` is `constrain(iron_power,
min_iron_pwm, max_iron_pwm)`, where `min_iron_pwm` is `check_iron_pwm = 5`
when the pre-decremented `check_count` is zero and 0 otherwise; so the duty
lies between that `min_iron_pwm` and `max_iron_pwm = 1960`. -/
theorem connected_duty_range (buff : Buff) (power : Nat → Nat) (s : Core)
    (h : s.adc_mode = t_ADC_mode.ADC_TEMP) :
    (HAL_ADC_ConvCpltCallback buff true power s).CCR1 =
      constrain (power ((rd buff 1 + rd buff 3 + rd buff 5 + rd buff 7 + 2) / 4) % 65536)
        (if (s.check_count + 255) % 256 = 0 then check_iron_pwm else 0) max_iron_pwm ∧
    (if (s.check_count + 255) % 256 = 0 then check_iron_pwm else 0) ≤
      (HAL_ADC_ConvCpltCallback buff true power s).CCR1 ∧
    (HAL_ADC_ConvCpltCallback buff true power s).CCR1 ≤ max_iron_pwm ∧
    (HAL_ADC_ConvCpltCallback buff true power s).trace.getLast? =
      some (Act.write_CCR1 (HAL_ADC_ConvCpltCallback buff true power s).CCR1) := by
  have e := cplt_temp buff true power s h
  have hlo : (checkProbe s.check_count).2 ≤ max_iron_pwm := by
    rw [checkProbe_snd]
    split
    · decide
    · exact Nat.zero_le _
  have hb := dutyWith_bounds (checkProbe s.check_count).2 ⟨buff, true, power⟩ hlo
  have hc : (HAL_ADC_ConvCpltCallback buff true power s).CCR1 =
      dutyWith (checkProbe s.check_count).2 ⟨buff, true, power⟩ := by rw [e]
  rw [hc]
  rw [checkProbe_snd] at hb ⊢
  refine ⟨?_, hb.1, hb.2, ?_⟩
  · simp only [dutyWith, tempAverages_eq, if_true]
  · rw [e]
    simp only [if_true, List.getLast?_append, List.getLast?_singleton, checkProbe_snd]
    rfl

/-- C3 (witness): a temperature completion right after boot, element connected,
`power` answering three times the temperature. -/
theorem connected_duty_range_witness :
    ({ core0 with adc_mode := t_ADC_mode.ADC_TEMP } : Core).adc_mode = t_ADC_mode.ADC_TEMP ∧
    ((HAL_ADC_ConvCpltCallback (mkBuff [100, 200, 50, 202]) true (fun t => 3 * t)
        { core0 with adc_mode := t_ADC_mode.ADC_TEMP }).CCR1 =
      constrain ((fun t => 3 * t)
          ((rd (mkBuff [100, 200, 50, 202]) 1 + rd (mkBuff [100, 200, 50, 202]) 3 +
            rd (mkBuff [100, 200, 50, 202]) 5 + rd (mkBuff [100, 200, 50, 202]) 7 + 2) / 4) % 65536)
        (if (({ core0 with adc_mode := t_ADC_mode.ADC_TEMP } : Core).check_count + 255) % 256 = 0
          then check_iron_pwm else 0) max_iron_pwm ∧
    (if (({ core0 with adc_mode := t_ADC_mode.ADC_TEMP } : Core).check_count + 255) % 256 = 0
        then check_iron_pwm else 0) ≤
      (HAL_ADC_ConvCpltCallback (mkBuff [100, 200, 50, 202]) true (fun t => 3 * t)
        { core0 with adc_mode := t_ADC_mode.ADC_TEMP }).CCR1 ∧
    (HAL_ADC_ConvCpltCallback (mkBuff [100, 200, 50, 202]) true (fun t => 3 * t)
        { core0 with adc_mode := t_ADC_mode.ADC_TEMP }).CCR1 ≤ max_iron_pwm ∧
    (HAL_ADC_ConvCpltCallback (mkBuff [100, 200, 50, 202]) true (fun t => 3 * t)
        { core0 with adc_mode := t_ADC_mode.ADC_TEMP }).trace.getLast? =
      some (Act.write_CCR1 (HAL_ADC_ConvCpltCallback (mkBuff [100, 200, 50, 202]) true
        (fun t => 3 * t) { core0 with adc_mode := t_ADC_mode.ADC_TEMP }).CCR1)) :=
  ⟨rfl, connected_duty_range (mkBuff [100, 200, 50, 202]) (fun t => 3 * t)
    { core0 with adc_mode := t_ADC_mode.ADC_TEMP } rfl⟩

/-- C3 (counterexample): from the boot state, two temperature cycles with the
element connected and `power` returning 0; the second completion is not a
probe cycle and stores the duty 0, which is below `check_iron_pwm`. -/
theorem connected_duty_below_probe_minimum :
    (run [chanB, Event.cplt (mkBuff []) true (fun _ => 0), chanB] core0).adc_mode =
      t_ADC_mode.ADC_TEMP ∧
    (run [chanB, Event.cplt (mkBuff []) true (fun _ => 0), chanB,
          Event.cplt (mkBuff []) true (fun _ => 0)] core0).CCR1 = 0 ∧
    ¬ (check_iron_pwm ≤
        (run [chanB, Event.cplt (mkBuff []) true (fun _ => 0), chanB,
              Event.cplt (mkBuff []) true (fun _ => 0)] core0).CCR1 ∧
       (run [chanB, Event.cplt (mkBuff []) true (fun _ => 0), chanB,
              Event.cplt (mkBuff []) true (fun _ => 0)] core0).CCR1 ≤ max_iron_pwm) := by
  decide

theorem cplt_adc_mode (buff : Buff) (connected : Bool) (power : Nat → Nat) (s : Core) :
    (HAL_ADC_ConvCpltCallback buff connected power s).adc_mode = t_ADC_mode.ADC_IDLE := by
  simp [HAL_ADC_ConvCpltCallback]

theorem cplt_disconnected_power_irrelevant (buff : Buff) (power power2 : Nat → Nat) (s : Core) :
    HAL_ADC_ConvCpltCallback buff false power s =
      HAL_ADC_ConvCpltCallback buff false power2 s := by
  simp [HAL_ADC_ConvCpltCallback]

theorem tempRun_length (xs : List TempInput) (s : Core) :
    (tempRun xs s).length = xs.length := by
  induction xs generalizing s with
  | nil => rfl
  | cons x xs ih => simp [tempRun, ih]

theorem tempRun_power_irrelevant (f : TempInput → (Nat → Nat)) (xs : List TempInput)
    (s : Core) (hd : ∀ x ∈ xs, x.connected = false) :
    tempRun (xs.map (fun x => { x with power := f x })) s = tempRun xs s := by
  induction xs generalizing s with
  | nil => rfl
  | cons x xs ih =>
    have hx : x.connected = false := hd x (List.mem_cons_self _ _)
    have hxs : ∀ y ∈ xs, y.connected = false := fun y hy => hd y (List.mem_cons_of_mem _ hy)
    simp only [List.map_cons, tempRun, hx]
    rw [cplt_disconnected_power_irrelevant x.buff (f x) x.power, ih _ hxs]

/-- C4: in a run of N consecutive temperature cycles in each of which the
element is reported disconnected, every completion stores the duty
`check_iron_pwm = 5` when its pre-decremented `check_count` is zero and 0
otherwise; its actions are the two ADC stops, `updateAmbient`,
`isIronConnected` and that store, so `power` is not called; and replacing the
`power` answers by any others leaves the whole run unchanged. -/
theorem disconnected_run_duty (xs : List TempInput) (s : Core)
    (hs : s.adc_mode = t_ADC_mode.ADC_IDLE) (hd : ∀ x ∈ xs, x.connected = false) :
    (tempRun xs s).length = xs.length ∧
    (∀ p ∈ tempRun xs s,
      p.1.adc_mode = t_ADC_mode.ADC_TEMP ∧
      p.2.CCR1 = (if (p.1.check_count + 255) % 256 = 0 then check_iron_pwm else 0) ∧
      (∃ a, p.2.trace = p.1.trace ++
        [Act.HAL_ADCEx_MultiModeStop_DMA, Act.HAL_ADC_Stop, Act.updateAmbient a,
         Act.isIronConnected, Act.write_CCR1 p.2.CCR1]) ∧
      (∀ t, Act.power t ∉ p.2.trace.drop p.1.trace.length)) ∧
    (∀ f : TempInput → (Nat → Nat),
      tempRun (xs.map (fun x => { x with power := f x })) s = tempRun xs s) := by
  refine ⟨tempRun_length xs s, ?_, fun f => tempRun_power_irrelevant f xs s hd⟩
  induction xs generalizing s with
  | nil => intro p hp; simp [tempRun] at hp
  | cons x xs ih =>
    have hx : x.connected = false := hd x (List.mem_cons_self _ _)
    have hxs : ∀ y ∈ xs, y.connected = false := fun y hy => hd y (List.mem_cons_of_mem _ hy)
    have h1 : (chanB.apply s).adc_mode = t_ADC_mode.ADC_TEMP := by rw [chanB_idle s hs]
    intro p hp
    simp only [tempRun, List.mem_cons] at hp
    rcases hp with hp | hp
    · subst hp
      have e := cplt_temp x.buff false x.power (chanB.apply s) h1
      simp only [hx]
      refine ⟨h1, ?_, ?_, ?_⟩
      · simp [e, dutyWith, checkProbe_snd]
      · refine ⟨(tempAverages x.buff).2, ?_⟩
        simp [e, dutyWith]
      · intro t
        simp [e]
    · exact ih _ (cplt_adc_mode _ _ _ _) hxs p hp

/-- C4 (witness): two temperature cycles from the boot state with the element
disconnected. -/
theorem disconnected_run_duty_witness :
    core0.adc_mode = t_ADC_mode.ADC_IDLE ∧
    (∀ x ∈ [TempInput.mk (mkBuff [100, 200, 50, 202]) false (fun t => t),
            TempInput.mk (mkBuff [7, 8, 9, 10]) false (fun _ => 900)],
      x.connected = false) ∧
    ((tempRun [TempInput.mk (mkBuff [100, 200, 50, 202]) false (fun t => t),
            TempInput.mk (mkBuff [7, 8, 9, 10]) false (fun _ => 900)] core0).length =
        [TempInput.mk (mkBuff [100, 200, 50, 202]) false (fun t => t),
            TempInput.mk (mkBuff [7, 8, 9, 10]) false (fun _ => 900)].length ∧
    (∀ p ∈ tempRun [TempInput.mk (mkBuff [100, 200, 50, 202]) false (fun t => t),
            TempInput.mk (mkBuff [7, 8, 9, 10]) false (fun _ => 900)] core0,
      p.1.adc_mode = t_ADC_mode.ADC_TEMP ∧
      p.2.CCR1 = (if (p.1.check_count + 255) % 256 = 0 then check_iron_pwm else 0) ∧
      (∃ a, p.2.trace = p.1.trace ++
        [Act.HAL_ADCEx_MultiModeStop_DMA, Act.HAL_ADC_Stop, Act.updateAmbient a,
         Act.isIronConnected, Act.write_CCR1 p.2.CCR1]) ∧
      (∀ t, Act.power t ∉ p.2.trace.drop p.1.trace.length)) ∧
    (∀ f : TempInput → (Nat → Nat),
      tempRun ([TempInput.mk (mkBuff [100, 200, 50, 202]) false (fun t => t),
            TempInput.mk (mkBuff [7, 8, 9, 10]) false (fun _ => 900)].map
              (fun x => { x with power := f x })) core0 =
        tempRun [TempInput.mk (mkBuff [100, 200, 50, 202]) false (fun t => t),
            TempInput.mk (mkBuff [7, 8, 9, 10]) false (fun _ => 900)] core0)) :=
  ⟨rfl, by simp,
   disconnected_run_duty _ core0 rfl (by simp)⟩

/-- C5: starting idle with `check_count = check_period = 6`, in six
consecutive temperature cycles the first five completions command the duty
with lower bound 0 and the sixth with lower bound `check_iron_pwm = 5`,
whatever `power` and `isIronConnected` answer; the counter runs 5, 4, 3, 2, 1
and is `check_period` again right after the sixth completion. -/
theorem probe_once_per_period (x1 x2 x3 x4 x5 x6 : TempInput) (s : Core)
    (hs : s.adc_mode = t_ADC_mode.ADC_IDLE) (hc : s.check_count = check_period) :
    (tempRun [x1, x2, x3, x4, x5, x6] s).map (fun p => p.2.CCR1) =
      [dutyWith 0 x1, dutyWith 0 x2, dutyWith 0 x3, dutyWith 0 x4, dutyWith 0 x5,
       dutyWith check_iron_pwm x6] ∧
    (tempRun [x1, x2, x3, x4, x5, x6] s).map (fun p => p.2.check_count) =
      [5, 4, 3, 2, 1, check_period] ∧
    (∀ p ∈ tempRun [x1, x2, x3, x4, x5, x6] s, p.1.adc_mode = t_ADC_mode.ADC_TEMP) ∧
    check_iron_pwm ≤ dutyWith check_iron_pwm x6 ∧
    (∀ x : TempInput, x.connected = false → dutyWith 0 x = 0) := by
  have step : ∀ (x : TempInput) (t : Core), t.adc_mode = t_ADC_mode.ADC_IDLE →
      (chanB.apply t).adc_mode = t_ADC_mode.ADC_TEMP ∧
      (HAL_ADC_ConvCpltCallback x.buff x.connected x.power (chanB.apply t)).adc_mode =
        t_ADC_mode.ADC_IDLE ∧
      (HAL_ADC_ConvCpltCallback x.buff x.connected x.power (chanB.apply t)).check_count =
        (checkProbe t.check_count).1 ∧
      (HAL_ADC_ConvCpltCallback x.buff x.connected x.power (chanB.apply t)).CCR1 =
        dutyWith (checkProbe t.check_count).2 x := by
    intro x t ht
    have h1 : (chanB.apply t).adc_mode = t_ADC_mode.ADC_TEMP := by rw [chanB_idle t ht]
    have h2 : (chanB.apply t).check_count = t.check_count := by rw [chanB_idle t ht]
    have e := cplt_temp x.buff x.connected x.power (chanB.apply t) h1
    refine ⟨h1, cplt_adc_mode _ _ _ _, ?_, ?_⟩
    · rw [e, h2]
    · rw [e, h2]
  obtain ⟨a1, b1, c1, d1⟩ := step x1 s hs
  obtain ⟨a2, b2, c2, d2⟩ := step x2 _ b1
  obtain ⟨a3, b3, c3, d3⟩ := step x3 _ b2
  obtain ⟨a4, b4, c4, d4⟩ := step x4 _ b3
  obtain ⟨a5, b5, c5, d5⟩ := step x5 _ b4
  obtain ⟨a6, b6, c6, d6⟩ := step x6 _ b5
  rw [hc] at c1 d1
  have k6 : checkProbe check_period = (5, 0) := by decide
  have k5 : checkProbe 5 = (4, 0) := by decide
  have k4 : checkProbe 4 = (3, 0) := by decide
  have k3 : checkProbe 3 = (2, 0) := by decide
  have k2 : checkProbe 2 = (1, 0) := by decide
  have k1 : checkProbe 1 = (check_period, check_iron_pwm) := by decide
  rw [k6] at c1 d1
  rw [c1, k5] at c2 d2
  rw [c2, k4] at c3 d3
  rw [c3, k3] at c4 d4
  rw [c4, k2] at c5 d5
  rw [c5, k1] at c6 d6
  refine ⟨?_, ?_, ?_, ?_, ?_⟩
  · simp only [tempRun, List.map_cons, List.map_nil, d1, d2, d3, d4, d5, d6]
  · simp only [tempRun, List.map_cons, List.map_nil, c1, c2, c3, c4, c5, c6]
  · intro p hp
    simp only [tempRun, List.mem_cons, List.mem_nil_iff, or_false] at hp
    rcases hp with r | r | r | r | r | r <;> subst r <;> assumption
  · exact (dutyWith_bounds check_iron_pwm x6 (by decide)).1
  · intro x hx
    simp [dutyWith, hx]

/-- C5 (witness): six temperature cycles from the boot state with the counter
freshly reset, the element alternately connected and disconnected. -/
theorem probe_once_per_period_witness :
    coreFresh.adc_mode = t_ADC_mode.ADC_IDLE ∧ coreFresh.check_count = check_period ∧
    ((tempRun [exOn, exOff, exOn, exOff, exOn, exOff] coreFresh).map (fun p => p.2.CCR1) =
      [dutyWith 0 exOn, dutyWith 0 exOff, dutyWith 0 exOn, dutyWith 0 exOff, dutyWith 0 exOn,
       dutyWith check_iron_pwm exOff] ∧
    (tempRun [exOn, exOff, exOn, exOff, exOn, exOff] coreFresh).map (fun p => p.2.check_count) =
      [5, 4, 3, 2, 1, check_period] ∧
    (∀ p ∈ tempRun [exOn, exOff, exOn, exOff, exOn, exOff] coreFresh,
      p.1.adc_mode = t_ADC_mode.ADC_TEMP) ∧
    check_iron_pwm ≤ dutyWith check_iron_pwm exOff ∧
    (∀ x : TempInput, x.connected = false → dutyWith 0 x = 0)) :=
  ⟨rfl, rfl, probe_once_per_period exOn exOff exOn exOff exOn exOff coreFresh rfl rfl⟩

theorem exBuff_rd :
    rd exBuff 1 = 200 ∧ rd exBuff 2 = 50 ∧ rd exBuff 3 = 202 ∧ rd exBuff 5 = 0 ∧
    rd exBuff 6 = 0 ∧ rd exBuff 7 = 0 := by decide

theorem exBuff2_rd :
    rd exBuff2 1 = 200 ∧ rd exBuff2 2 = 50 ∧ rd exBuff2 3 = 202 ∧ rd exBuff2 5 = 200 ∧
    rd exBuff2 6 = 50 ∧ rd exBuff2 7 = 202 := by decide

theorem cplt_temp_acts (buff : Buff) (connected : Bool) (power : Nat → Nat) (s : Core)
    (h : s.adc_mode = t_ADC_mode.ADC_TEMP) :
    actsOf (HAL_ADC_ConvCpltCallback buff connected power) s =
      [Act.HAL_ADCEx_MultiModeStop_DMA, Act.HAL_ADC_Stop,
       Act.updateAmbient ((rd buff 2 + rd buff 6 + 1) / 2), Act.isIronConnected] ++
      ((if connected = true then
          [Act.power ((rd buff 1 + rd buff 3 + rd buff 5 + rd buff 7 + 2) / 4)] else []) ++
       [Act.write_CCR1 (HAL_ADC_ConvCpltCallback buff connected power s).CCR1]) := by
  apply actsOf_eq
  rw [cplt_temp buff connected power s h, tempAverages_eq]
  simp

/-- C6 (amended): a temperature completion hands to `updateAmbient` the value
`(buff[2] + buff[6] + 1) / 2` and, when the element is connected, to `power`
the value `(buff[1] + buff[3] + buff[5] + buff[7] + 2) / 4`: the means of the
two ambient and of the four temperature samples of the eight-element buffer,
halves rounded up.  For the samples `[100,200,50,202]` followed by a second
loop of zeros this is ambient 25 and temperature 101. -/
theorem temperature_completion_averages (buff : Buff) (connected : Bool) (power : Nat → Nat)
    (s : Core) (h : s.adc_mode = t_ADC_mode.ADC_TEMP) :
    (∃ tl, actsOf (HAL_ADC_ConvCpltCallback buff connected power) s =
        [Act.HAL_ADCEx_MultiModeStop_DMA, Act.HAL_ADC_Stop,
         Act.updateAmbient ((rd buff 2 + rd buff 6 + 1) / 2), Act.isIronConnected] ++ tl ∧
      (connected = true → ∃ d, tl =
        [Act.power ((rd buff 1 + rd buff 3 + rd buff 5 + rd buff 7 + 2) / 4),
         Act.write_CCR1 d]) ∧
      (connected = false → ∃ d, tl = [Act.write_CCR1 d])) ∧
    (∃ d, actsOf (HAL_ADC_ConvCpltCallback exBuff true power) s =
        [Act.HAL_ADCEx_MultiModeStop_DMA, Act.HAL_ADC_Stop, Act.updateAmbient 25,
         Act.isIronConnected, Act.power 101, Act.write_CCR1 d]) := by
  constructor
  · refine ⟨_, cplt_temp_acts buff connected power s h, ?_, ?_⟩
    · intro hc
      exact ⟨(HAL_ADC_ConvCpltCallback buff connected power s).CCR1, by simp [hc]⟩
    · intro hc
      exact ⟨(HAL_ADC_ConvCpltCallback buff connected power s).CCR1, by simp [hc]⟩
  · refine ⟨(HAL_ADC_ConvCpltCallback exBuff true power s).CCR1, ?_⟩
    rw [cplt_temp_acts exBuff true power s h]
    obtain ⟨r1, r2, r3, r5, r6, r7⟩ := exBuff_rd
    simp [r1, r2, r3, r5, r6, r7]

/-- C6 (witness): a temperature completion on the buffer that holds the scenario
samples in both loops. -/
theorem temperature_completion_averages_witness :
    coreTemp.adc_mode = t_ADC_mode.ADC_TEMP ∧
    ((∃ tl, actsOf (HAL_ADC_ConvCpltCallback exBuff2 true (fun t => t)) coreTemp =
        [Act.HAL_ADCEx_MultiModeStop_DMA, Act.HAL_ADC_Stop,
         Act.updateAmbient ((rd exBuff2 2 + rd exBuff2 6 + 1) / 2), Act.isIronConnected] ++ tl ∧
      (true = true → ∃ d, tl =
        [Act.power ((rd exBuff2 1 + rd exBuff2 3 + rd exBuff2 5 + rd exBuff2 7 + 2) / 4),
         Act.write_CCR1 d]) ∧
      (true = false → ∃ d, tl = [Act.write_CCR1 d])) ∧
    (∃ d, actsOf (HAL_ADC_ConvCpltCallback exBuff true (fun t => t)) coreTemp =
        [Act.HAL_ADCEx_MultiModeStop_DMA, Act.HAL_ADC_Stop, Act.updateAmbient 25,
         Act.isIronConnected, Act.power 101, Act.write_CCR1 d])) :=
  ⟨rfl, temperature_completion_averages exBuff2 true (fun t => t) coreTemp rfl⟩

/-- C6 (counterexample): for the samples `[100,200,50,202]` the completion
does not hand over both ambient 25 and temperature `round((200+202)/2) = 201`.
With the second loop of the buffer at 0 the temperature handed to `power` is
101; with the four samples delivered by both loops the temperature is 201
but the ambient handed to `updateAmbient` is 50. -/
theorem scenario_averages_differ :
    (Act.updateAmbient 25 ∈ actsOf (HAL_ADC_ConvCpltCallback exBuff true (fun t => t)) coreTemp ∧
     Act.power 101 ∈ actsOf (HAL_ADC_ConvCpltCallback exBuff true (fun t => t)) coreTemp ∧
     Act.power ((200 + 202 + 1) / 2) ∉
       actsOf (HAL_ADC_ConvCpltCallback exBuff true (fun t => t)) coreTemp) ∧
    (Act.power ((200 + 202 + 1) / 2) ∈
       actsOf (HAL_ADC_ConvCpltCallback exBuff2 true (fun t => t)) coreTemp ∧
     Act.updateAmbient 50 ∈ actsOf (HAL_ADC_ConvCpltCallback exBuff2 true (fun t => t)) coreTemp ∧
     Act.updateAmbient 25 ∉
       actsOf (HAL_ADC_ConvCpltCallback exBuff2 true (fun t => t)) coreTemp) := by
  rw [cplt_temp_acts exBuff true (fun t => t) coreTemp rfl,
    cplt_temp_acts exBuff2 true (fun t => t) coreTemp rfl]
  obtain ⟨r1, r2, r3, r5, r6, r7⟩ := exBuff_rd
  obtain ⟨q1, q2, q3, q5, q6, q7⟩ := exBuff2_rd
  simp [r1, r2, r3, r5, r6, r7, q1, q2, q3, q5, q6, q7]

theorem run_append (a b : List Event) (s : Core) : run (a ++ b) s = run b (run a s) := by
  simp [run, List.foldl_append]

theorem run_cons (e : Event) (l : List Event) (s : Core) : run (e :: l) s = run l (e.apply s) := by
  simp [run]

theorem dutyAfter_append (d : Nat) (a b : List Act) :
    dutyAfter d (a ++ b) = dutyAfter (dutyAfter d a) b := by
  simp [dutyAfter, List.foldl_append]

theorem dutyAfter_cases (tr : List Act) (d : Nat) (h : ∀ v, Act.write_CCR1 v ∈ tr → v = 0) :
    ((∀ v, Act.write_CCR1 v ∉ tr) ∧ dutyAfter d tr = d) ∨
    ((∃ v, Act.write_CCR1 v ∈ tr) ∧ dutyAfter d tr = 0) := by
  induction tr generalizing d with
  | nil => left; simp [dutyAfter]
  | cons a tr ih =>
    have h2 : ∀ v, Act.write_CCR1 v ∈ tr → v = 0 := fun v hv => h v (List.mem_cons_of_mem _ hv)
    have hstep : ∀ d2, dutyAfter d (a :: tr) = dutyAfter d2 tr →
        (d2 = d ∧ ∀ v, a ≠ Act.write_CCR1 v) ∨ (d2 = 0 ∧ ∃ v, a = Act.write_CCR1 v) →
        ((∀ v, Act.write_CCR1 v ∉ a :: tr) ∧ dutyAfter d (a :: tr) = d) ∨
        ((∃ v, Act.write_CCR1 v ∈ a :: tr) ∧ dutyAfter d (a :: tr) = 0) := by
      intro d2 e hc
      rw [e]
      rcases ih d2 h2 with ⟨n, k⟩ | ⟨⟨v, hv⟩, k⟩
      · rcases hc with ⟨c1, c2⟩ | ⟨c1, v, c2⟩
        · left
          refine ⟨?_, by rw [k, c1]⟩
          intro v hv
          rcases List.mem_cons.1 hv with r | r
          · exact c2 v r.symm
          · exact n v r
        · right
          exact ⟨⟨v, by rw [c2]; exact List.mem_cons_self _ _⟩, by rw [k, c1]⟩
      · right
        exact ⟨⟨v, List.mem_cons_of_mem _ hv⟩, k⟩
    cases a with
    | write_CCR1 w =>
      have hw : w = 0 := h w (List.mem_cons_self _ _)
      exact hstep w (by simp [dutyAfter]) (Or.inr ⟨hw, w, rfl⟩)
    | _ => exact hstep d (by simp [dutyAfter]) (Or.inl ⟨rfl, by intro v; simp⟩)

theorem chanA_idle_powered (s : Core) (hs : s.adc_mode = t_ADC_mode.ADC_IDLE)
    (hd : s.CCR1 ≠ 0) :
    chanA.apply s =
      { s with adc_mode := t_ADC_mode.ADC_CURRENT,
               trace := s.trace ++ [Act.HAL_ADC_Start, Act.HAL_ADCEx_MultiModeStart_DMA 4] } := by
  simp [chanA, Event.apply, HAL_TIM_OC_DelayElapsedCallback, adcStart, hs, hd, emit, ADC_CONV,
    ADC_LOOPS]

theorem chanB_busy (s : Core) (h : s.adc_mode ≠ t_ADC_mode.ADC_IDLE) :
    chanB.apply s = { s with CCR1 := 0, trace := s.trace ++ [Act.write_CCR1 0] } := by
  simp [chanB, Event.apply, HAL_TIM_OC_DelayElapsedCallback, adcStart, h, emit, set_CCR1]

theorem loop_effect (lowTemp : Nat) (rtm step : Option MODE) (s : Core) :
    (loop lowTemp rtm step s).adc_mode = s.adc_mode ∧
    (loop lowTemp rtm step s).check_count = s.check_count ∧
    (loop lowTemp rtm step s).wiring = s.wiring ∧
    ∃ tr, (loop lowTemp rtm step s).trace = s.trace ++ tr ∧
      (loop lowTemp rtm step s).CCR1 = dutyAfter s.CCR1 tr ∧
      (∀ v, Act.write_CCR1 v ∈ tr → v = 0) ∧ Act.errorMessage ∉ tr := by
  have hh : ∀ v, Act.write_CCR1 v ∉ tickHead lowTemp s.pMode := by
    intro v hv
    rcases mem_tickHead _ _ _ hv with r | r | r <;> simp at r
  have he : Act.errorMessage ∉ tickHead lowTemp s.pMode := by
    intro hv
    rcases mem_tickHead _ _ _ hv with r | r | r <;> simp at r
  have hd : dutyAfter s.CCR1 (tickHead lowTemp s.pMode) = s.CCR1 := by
    rcases dutyAfter_cases (tickHead lowTemp s.pMode) s.CCR1
      (fun v hv => absurd hv (hh v)) with ⟨_, k⟩ | ⟨⟨v, hv⟩, _⟩
    · exact k
    · exact absurd hv (hh v)
  by_cases hf : forced rtm s.pMode
  · obtain ⟨nm, _, e⟩ := loop_forced lowTemp rtm step s hf
    rw [e]
    refine ⟨rfl, rfl, rfl, _, rfl, ?_, ?_, ?_⟩
    · simp [dutyAfter_append, dutyAfter]
    · intro v hv
      rcases List.mem_append.1 hv with r | r
      · exact absurd r (hh v)
      · simpa using r
    · intro hv
      rcases List.mem_append.1 hv with r | r
      · exact he r
      · simp at r
  · by_cases hs : step = some s.pMode
    · rw [loop_stay lowTemp rtm step s hf hs]
      refine ⟨rfl, rfl, rfl, _, rfl, ?_, ?_, ?_⟩
      · rw [dutyAfter_append, hd]
        rfl
      · intro v hv
        rcases List.mem_append.1 hv with r | r
        · exact absurd r (hh v)
        · simp at r
      · intro hv
        rcases List.mem_append.1 hv with r | r
        · exact he r
        · simp at r
    · rw [loop_switch lowTemp rtm step s hf hs]
      refine ⟨rfl, rfl, rfl, _, rfl, ?_, ?_, ?_⟩
      · simp [dutyAfter_append, dutyAfter]
      · intro v hv
        rcases List.mem_append.1 hv with r | r
        · exact absurd r (hh v)
        · simpa using r
      · intro hv
        rcases List.mem_append.1 hv with r | r
        · exact he r
        · simp at r

theorem loop_transition_CCR1 (lowTemp : Nat) (rtm step : Option MODE) (s : Core)
    (h : forced rtm s.pMode ∨ step ≠ some s.pMode) : (loop lowTemp rtm step s).CCR1 = 0 := by
  by_cases hf : forced rtm s.pMode
  · obtain ⟨nm, _, e⟩ := loop_forced lowTemp rtm step s hf
    rw [e]
  · rw [loop_switch lowTemp rtm step s hf (by tauto)]

theorem mid_step (e : Event) (t : Core) (he : isMid e = true)
    (ht : t.adc_mode = t_ADC_mode.ADC_CURRENT) :
    (e.apply t).adc_mode = t_ADC_mode.ADC_CURRENT ∧
    ∃ tr, (e.apply t).trace = t.trace ++ tr ∧ (e.apply t).CCR1 = dutyAfter t.CCR1 tr ∧
      (∀ v, Act.write_CCR1 v ∈ tr → v = 0) := by
  cases e with
  | cplt b c p => simp [isMid] at he
  | tick l r st =>
    obtain ⟨h1, _, _, tr, h2, h3, h4, _⟩ := loop_effect l r st t
    exact ⟨by simpa [Event.apply, ht] using h1, tr, h2, h3, h4⟩
  | tim inst ch =>
    have hb : Event.tim inst ch = chanB := by
      cases inst <;> cases ch <;> simp [isMid] at he
      rfl
    rw [hb, chanB_busy t (by rw [ht]; decide)]
    exact ⟨ht, [Act.write_CCR1 0], rfl, by simp [dutyAfter], by simp⟩

theorem mid_run (mid : List Event) (t : Core) (hm : ∀ e ∈ mid, isMid e = true)
    (ht : t.adc_mode = t_ADC_mode.ADC_CURRENT) :
    (run mid t).adc_mode = t_ADC_mode.ADC_CURRENT ∧
    ∃ tr, (run mid t).trace = t.trace ++ tr ∧ (run mid t).CCR1 = dutyAfter t.CCR1 tr ∧
      (∀ v, Act.write_CCR1 v ∈ tr → v = 0) := by
  induction mid generalizing t with
  | nil => exact ⟨ht, [], by simp [run], by simp [run, dutyAfter], by simp⟩
  | cons e mid ih =>
    obtain ⟨a1, tr1, a2, a3, a4⟩ := mid_step e t (hm e (List.mem_cons_self _ _)) ht
    obtain ⟨b1, tr2, b2, b3, b4⟩ :=
      ih (e.apply t) (fun x hx => hm x (List.mem_cons_of_mem _ hx)) a1
    rw [run_cons]
    refine ⟨b1, tr1 ++ tr2, by rw [b2, a2, List.append_assoc], ?_, ?_⟩
    · rw [b3, a3, dutyAfter_append]
    · intro v hv
      rcases List.mem_append.1 hv with r | r
      · exact a4 v r
      · exact b4 v r

theorem mid_run_zero (mid : List Event) (t : Core) (hm : ∀ e ∈ mid, isMid e = true)
    (ht : t.adc_mode = t_ADC_mode.ADC_CURRENT) (hz : t.CCR1 = 0) : (run mid t).CCR1 = 0 := by
  obtain ⟨_, tr, _, h3, h4⟩ := mid_run mid t hm ht
  rw [h3, hz]
  rcases dutyAfter_cases tr 0 h4 with ⟨_, k⟩ | ⟨_, k⟩ <;> exact k

theorem cplt_current (buff : Buff) (connected : Bool) (power : Nat → Nat) (s : Core)
    (h : s.adc_mode = t_ADC_mode.ADC_CURRENT) :
    HAL_ADC_ConvCpltCallback buff connected power s =
      { s with adc_mode := t_ADC_mode.ADC_IDLE,
               trace := s.trace ++
                 ([Act.HAL_ADCEx_MultiModeStop_DMA, Act.HAL_ADC_Stop] ++
                  (if s.CCR1 ≠ 0 then [Act.updateIronCurrent ((rd buff 0 + rd buff 4 + 1) / 2)]
                   else [])) } := by
  by_cases hd : s.CCR1 = 0 <;>
    simp [HAL_ADC_ConvCpltCallback, h, emit, hd, currAverage_eq]

/-- C7 (amended): after a channel-A event accepted in `ADC_IDLE` with a
nonzero duty, and any channel-B events and ticks in between, the acquisition
is still in `ADC_CURRENT` and the completion calls
`updateIronCurrent((buff[0] + buff[4] + 1) / 2)` exactly when `TIM2->CCR1` is
nonzero when the completion runs, that is when no event in between stored to
the duty register.  A channel-B event in between (its `adcStart` is
rejected) and a tick that installs a mode both leave the register at 0, and
then nothing is forwarded. -/
theorem current_completion_forwards_iff_powered (mid : List Event) (buff : Buff)
    (connected : Bool) (power : Nat → Nat) (s : Core)
    (hs : s.adc_mode = t_ADC_mode.ADC_IDLE) (hd : s.CCR1 ≠ 0)
    (hm : ∀ e ∈ mid, isMid e = true) :
    (chanA.apply s).adc_mode = t_ADC_mode.ADC_CURRENT ∧
    (run mid (chanA.apply s)).adc_mode = t_ADC_mode.ADC_CURRENT ∧
    actsOf (HAL_ADC_ConvCpltCallback buff connected power) (run mid (chanA.apply s)) =
      [Act.HAL_ADCEx_MultiModeStop_DMA, Act.HAL_ADC_Stop] ++
        (if (run mid (chanA.apply s)).CCR1 ≠ 0 then
          [Act.updateIronCurrent ((rd buff 0 + rd buff 4 + 1) / 2)] else []) ∧
    ((run mid (chanA.apply s)).CCR1 ≠ 0 ↔
      ∀ v, Act.write_CCR1 v ∉ actsOf (run mid) (chanA.apply s)) ∧
    (chanB ∈ mid → (run mid (chanA.apply s)).CCR1 = 0) ∧
    (∀ pre post lowTemp rtm step, mid = pre ++ Event.tick lowTemp rtm step :: post →
      forced rtm (run pre (chanA.apply s)).pMode ∨
        step ≠ some (run pre (chanA.apply s)).pMode →
      (run mid (chanA.apply s)).CCR1 = 0) := by
  have e1 := chanA_idle_powered s hs hd
  have h1 : (chanA.apply s).adc_mode = t_ADC_mode.ADC_CURRENT := by rw [e1]
  have h1d : (chanA.apply s).CCR1 = s.CCR1 := by rw [e1]
  obtain ⟨h2, tr, h3, h4, h5⟩ := mid_run mid (chanA.apply s) hm h1
  refine ⟨h1, h2, ?_, ?_, ?_, ?_⟩
  · exact actsOf_eq _ _ _ (by rw [cplt_current buff connected power _ h2])
  · rw [actsOf_eq _ _ _ h3, h4, h1d]
    rcases dutyAfter_cases tr s.CCR1 h5 with ⟨n, k⟩ | ⟨⟨v, hv⟩, k⟩
    · rw [k]
      exact ⟨fun _ => n, fun _ => hd⟩
    · rw [k]
      exact ⟨fun c => absurd rfl c, fun n => absurd hv (n v)⟩
  · intro hb
    obtain ⟨pre, post, e⟩ := List.append_of_mem hb
    have hpre : ∀ x ∈ pre, isMid x = true := fun x hx => hm x (by rw [e]; simp [hx])
    have hpost : ∀ x ∈ post, isMid x = true := fun x hx => hm x (by rw [e]; simp [hx])
    have hp := (mid_run pre (chanA.apply s) hpre h1).1
    rw [e, run_append, run_cons]
    have eb := chanB_busy (run pre (chanA.apply s)) (by rw [hp]; decide)
    exact mid_run_zero post _ hpost (by rw [eb]; exact hp) (by rw [eb])
  · intro pre post lowTemp rtm step e ht
    have hpre : ∀ x ∈ pre, isMid x = true := fun x hx => hm x (by rw [e]; simp [hx])
    have hpost : ∀ x ∈ post, isMid x = true := fun x hx => hm x (by rw [e]; simp [hx])
    have hp := (mid_run pre (chanA.apply s) hpre h1).1
    rw [e, run_append, run_cons]
    refine mid_run_zero post _ hpost ?_ ?_
    · have hl := (loop_effect lowTemp rtm step (run pre (chanA.apply s))).1
      rw [hp] at hl
      exact hl
    · exact loop_transition_CCR1 lowTemp rtm step _ ht

/-- C7 (witness): current sampling started with duty 100, one tick that keeps the
mode, then the completion. -/
theorem current_completion_forwards_iff_powered_witness :
    corePowered.adc_mode = t_ADC_mode.ADC_IDLE ∧ corePowered.CCR1 ≠ 0 ∧
    (∀ e ∈ [Event.tick 0 none (some MODE.standby_iron)], isMid e = true) ∧
    ((chanA.apply corePowered).adc_mode = t_ADC_mode.ADC_CURRENT ∧
    (run [Event.tick 0 none (some MODE.standby_iron)] (chanA.apply corePowered)).adc_mode =
      t_ADC_mode.ADC_CURRENT ∧
    actsOf (HAL_ADC_ConvCpltCallback exBuff true (fun t => t))
        (run [Event.tick 0 none (some MODE.standby_iron)] (chanA.apply corePowered)) =
      [Act.HAL_ADCEx_MultiModeStop_DMA, Act.HAL_ADC_Stop] ++
        (if (run [Event.tick 0 none (some MODE.standby_iron)] (chanA.apply corePowered)).CCR1 ≠ 0
          then [Act.updateIronCurrent ((rd exBuff 0 + rd exBuff 4 + 1) / 2)] else []) ∧
    ((run [Event.tick 0 none (some MODE.standby_iron)] (chanA.apply corePowered)).CCR1 ≠ 0 ↔
      ∀ v, Act.write_CCR1 v ∉
        actsOf (run [Event.tick 0 none (some MODE.standby_iron)]) (chanA.apply corePowered)) ∧
    (chanB ∈ [Event.tick 0 none (some MODE.standby_iron)] →
      (run [Event.tick 0 none (some MODE.standby_iron)] (chanA.apply corePowered)).CCR1 = 0) ∧
    (∀ pre post lowTemp rtm step,
      [Event.tick 0 none (some MODE.standby_iron)] =
        pre ++ Event.tick lowTemp rtm step :: post →
      forced rtm (run pre (chanA.apply corePowered)).pMode ∨
        step ≠ some (run pre (chanA.apply corePowered)).pMode →
      (run [Event.tick 0 none (some MODE.standby_iron)] (chanA.apply corePowered)).CCR1 = 0)) :=
  ⟨rfl, by decide, by simp [isMid],
   current_completion_forwards_iff_powered [Event.tick 0 none (some MODE.standby_iron)] exBuff
     true (fun t => t) corePowered rfl (by decide) (by simp [isMid])⟩

/-- C7 (counterexample): from the boot state a temperature cycle sets the
duty to 100; a channel-A event then starts current sampling with that
nonzero duty; a channel-B event arrives before the completion, its
`adcStart` is rejected and zeroes the duty; the completion then forwards
nothing to `updateIronCurrent`. -/
theorem current_reading_dropped :
    (run [chanB, Event.cplt exBuff true (fun _ => 100)] core0).adc_mode =
      t_ADC_mode.ADC_IDLE ∧
    (run [chanB, Event.cplt exBuff true (fun _ => 100)] core0).CCR1 = 100 ∧
    (run [chanB, Event.cplt exBuff true (fun _ => 100), chanA] core0).adc_mode =
      t_ADC_mode.ADC_CURRENT ∧
    (run [chanB, Event.cplt exBuff true (fun _ => 100), chanA, chanB] core0).adc_mode =
      t_ADC_mode.ADC_CURRENT ∧
    (∀ v, Act.updateIronCurrent v ∉
      (run [chanB, Event.cplt exBuff true (fun _ => 100), chanA, chanB,
            Event.cplt exBuff true (fun _ => 100)] core0).trace) := by
  refine ⟨by decide, by decide, by decide, by decide, ?_⟩
  intro v
  simp [run, Event.apply, chanA, chanB, HAL_TIM_OC_DelayElapsedCallback,
    HAL_ADC_ConvCpltCallback, adcStart, emit, set_CCR1, core0, constrain, checkProbe,
    check_iron_pwm, max_iron_pwm, check_period]

theorem setup_read_error (s : Core) :
    (setup CFG_STATUS.CFG_READ_ERROR s).pMode = MODE.fail ∧
    (setup CFG_STATUS.CFG_READ_ERROR s).wiring MODE.fail =
      some ⟨MODE.fail, MODE.fail, MODE.fail⟩ ∧
    (setup CFG_STATUS.CFG_READ_ERROR s).trace.count Act.errorMessage =
      s.trace.count Act.errorMessage + 1 := by
  refine ⟨?_, ?_, ?_⟩
  · simp [setup, HW_init, MODE_setup, emit]
  · simp [setup, HW_init, MODE_setup, emit]
  · simp [setup, HW_init, MODE_setup, emit, List.count_append, List.count_cons]

theorem intr_frame (e : Event) (s : Core) (he : ∀ l r st, e ≠ Event.tick l r st) :
    (e.apply s).pMode = s.pMode ∧ (e.apply s).wiring = s.wiring ∧
    (e.apply s).trace.count Act.errorMessage = s.trace.count Act.errorMessage := by
  cases e with
  | tick l r st => exact absurd rfl (he l r st)
  | tim inst ch =>
    simp only [Event.apply, HAL_TIM_OC_DelayElapsedCallback, adcStart]
    split_ifs <;> simp [emit, set_CCR1, List.count_append, List.count_cons]
  | cplt b c p =>
    simp only [Event.apply, HAL_ADC_ConvCpltCallback]
    split_ifs <;> simp [emit, set_CCR1, List.count_append, List.count_cons]

theorem loop_locked (lowTemp : Nat) (rtm step : Option MODE) (s : Core)
    (hp : s.pMode = MODE.fail) (hw : s.wiring MODE.fail = some ⟨MODE.fail, MODE.fail, MODE.fail⟩)
    (hr : allowed s.wiring MODE.fail rtm) (hst : allowed s.wiring MODE.fail step) :
    (loop lowTemp rtm step s).pMode = MODE.fail := by
  have key : ∀ o, allowed s.wiring MODE.fail o → o = none ∨ o = some MODE.fail := by
    intro o ho
    rcases ho with r | r | ⟨t, ht, r⟩
    · exact Or.inl r
    · exact Or.inr r
    · rw [hw] at ht
      cases ht
      right
      rcases r with r | r | r <;> exact r
  have hf : ¬ forced rtm s.pMode := by
    rw [not_forced_iff, hp]
    exact key rtm hr
  by_cases hs : step = some s.pMode
  · rw [loop_stay lowTemp rtm step s hf hs]
    exact hp
  · rw [loop_switch lowTemp rtm step s hf hs]
    rcases key step hst with r | r
    · rw [r]
      rfl
    · rw [r]
      rfl

/-- C8: after `setup` with the status `CFG_READ_ERROR` the active mode is
`fail` and `errorMessage` has been called once; after any further sequence
of events (ticks and interrupts) in which every tick receives from
`returnToMain` and from the step only answers that are null, `fail` itself
or one of the targets `fail` is wired with, the active mode is still `fail`
and `errorMessage` has still been called once. -/
theorem read_error_locks_fail (evs : List Event) (s : Core)
    (h : ∀ lowTemp rtm step, Event.tick lowTemp rtm step ∈ evs →
      allowed (setup CFG_STATUS.CFG_READ_ERROR s).wiring MODE.fail rtm ∧
      allowed (setup CFG_STATUS.CFG_READ_ERROR s).wiring MODE.fail step) :
    (setup CFG_STATUS.CFG_READ_ERROR s).pMode = MODE.fail ∧
    (setup CFG_STATUS.CFG_READ_ERROR s).trace.count Act.errorMessage =
      s.trace.count Act.errorMessage + 1 ∧
    (run evs (setup CFG_STATUS.CFG_READ_ERROR s)).pMode = MODE.fail ∧
    (run evs (setup CFG_STATUS.CFG_READ_ERROR s)).trace.count Act.errorMessage =
      s.trace.count Act.errorMessage + 1 := by
  obtain ⟨h1, h2, h3⟩ := setup_read_error s
  have inv : ∀ (l : List Event) (t : Core), t.pMode = MODE.fail →
      t.wiring = (setup CFG_STATUS.CFG_READ_ERROR s).wiring →
      (∀ lowTemp rtm step, Event.tick lowTemp rtm step ∈ l →
        allowed (setup CFG_STATUS.CFG_READ_ERROR s).wiring MODE.fail rtm ∧
        allowed (setup CFG_STATUS.CFG_READ_ERROR s).wiring MODE.fail step) →
      (run l t).pMode = MODE.fail ∧
      (run l t).trace.count Act.errorMessage = t.trace.count Act.errorMessage := by
    intro l
    induction l with
    | nil => intro t hp _ _; exact ⟨hp, rfl⟩
    | cons e l ih =>
      intro t hp hw hl
      rw [run_cons]
      have hl2 : ∀ lowTemp rtm step, Event.tick lowTemp rtm step ∈ l →
          allowed (setup CFG_STATUS.CFG_READ_ERROR s).wiring MODE.fail rtm ∧
          allowed (setup CFG_STATUS.CFG_READ_ERROR s).wiring MODE.fail step :=
        fun a b c hm => hl a b c (List.mem_cons_of_mem _ hm)
      cases e with
      | tick lo r st =>
        obtain ⟨ar, ast⟩ := hl lo r st (List.mem_cons_self _ _)
        obtain ⟨_, _, f3, tr, f4, _, _, f5⟩ := loop_effect lo r st t
        have hp2 : (loop lo r st t).pMode = MODE.fail :=
          loop_locked lo r st t hp (by rw [hw]; exact h2) (by rw [hw]; exact ar)
            (by rw [hw]; exact ast)
        obtain ⟨g1, g2⟩ := ih (loop lo r st t) hp2 (by rw [f3, hw]) hl2
        refine ⟨g1, ?_⟩
        show List.count Act.errorMessage (run l (loop lo r st t)).trace = _
        rw [g2, f4, List.count_append, List.count_eq_zero_of_not_mem f5]
        rfl
      | tim inst ch =>
        obtain ⟨f1, f2, f3⟩ := intr_frame (Event.tim inst ch) t (by intro _ _ _ c; cases c)
        obtain ⟨g1, g2⟩ := ih _ (by rw [f1, hp]) (by rw [f2, hw]) hl2
        exact ⟨g1, by rw [g2, f3]⟩
      | cplt b c p =>
        obtain ⟨f1, f2, f3⟩ := intr_frame (Event.cplt b c p) t (by intro _ _ _ c; cases c)
        obtain ⟨g1, g2⟩ := ih _ (by rw [f1, hp]) (by rw [f2, hw]) hl2
        exact ⟨g1, by rw [g2, f3]⟩
  obtain ⟨i1, i2⟩ := inv evs _ h1 rfl h
  exact ⟨h1, h3, i1, by rw [i2, h3]⟩

/-- C8 (witness): boot with `CFG_READ_ERROR`, then a tick answering null, a
channel-B event and a tick answering `fail`. -/
theorem read_error_locks_fail_witness :
    (∀ lowTemp rtm step, Event.tick lowTemp rtm step ∈ exLocked →
      allowed (setup CFG_STATUS.CFG_READ_ERROR core0).wiring MODE.fail rtm ∧
      allowed (setup CFG_STATUS.CFG_READ_ERROR core0).wiring MODE.fail step) ∧
    ((setup CFG_STATUS.CFG_READ_ERROR core0).pMode = MODE.fail ∧
    (setup CFG_STATUS.CFG_READ_ERROR core0).trace.count Act.errorMessage =
      core0.trace.count Act.errorMessage + 1 ∧
    (run exLocked (setup CFG_STATUS.CFG_READ_ERROR core0)).pMode = MODE.fail ∧
    (run exLocked (setup CFG_STATUS.CFG_READ_ERROR core0)).trace.count Act.errorMessage =
      core0.trace.count Act.errorMessage + 1) :=
  have hyp : ∀ lowTemp rtm step, Event.tick lowTemp rtm step ∈ exLocked →
      allowed (setup CFG_STATUS.CFG_READ_ERROR core0).wiring MODE.fail rtm ∧
      allowed (setup CFG_STATUS.CFG_READ_ERROR core0).wiring MODE.fail step := by
    intro lowTemp rtm step hm
    simp only [exLocked, chanB, List.mem_cons, Event.tick.injEq, List.mem_singleton,
      List.mem_nil_iff, or_false] at hm
    rcases hm with ⟨_, r1, r2⟩ | hm | ⟨_, r1, r2⟩
    · rw [r1, r2]
      exact ⟨Or.inl rfl, Or.inl rfl⟩
    · cases hm
    · rw [r1, r2]
      exact ⟨Or.inr (Or.inl rfl), Or.inr (Or.inl rfl)⟩
  ⟨hyp, read_error_locks_fail exLocked core0 hyp⟩

/-- C9: from the statically initialised state, `setup` leaves `pMode` at
`activate` for `CFG_NO_TIP`, at `fail` for `CFG_READ_ERROR` and at
`standby_iron` for the remaining status; the only `init` it calls is that of
this mode, and it is the last action of `setup`. -/
theorem setup_initial_mode (st : CFG_STATUS) :
    (setup st core0).pMode =
      (match st with
       | CFG_STATUS.CFG_NO_TIP => MODE.activate
       | CFG_STATUS.CFG_READ_ERROR => MODE.fail
       | CFG_STATUS.CFG_OK => MODE.standby_iron) ∧
    (∀ m, Act.mode_init m ∈ (setup st core0).trace ↔ m = (setup st core0).pMode) ∧
    (setup st core0).trace.getLast? = some (Act.mode_init (setup st core0).pMode) ∧
    (setup CFG_STATUS.CFG_NO_TIP core0).pMode ≠ MODE.standby_iron := by
  refine ⟨?_, ?_, ?_, ?_⟩
  · cases st <;> rfl
  · intro m
    cases st <;> simp [setup, HW_init, MODE_setup, emit, core0]
  · cases st <;> simp [setup, HW_init, MODE_setup, emit, core0]
  · simp [setup, HW_init, MODE_setup, emit, core0]

/-- C10: when the forced-return target is present and differs from the
active mode, the tick makes it the active mode, calls its `init` and does not
call `MODE::loop`; the actions of a tick contain a call of `MODE::loop`
exactly when the forced-return target is null or equal to the active mode,
and then it is the `loop` of the mode that was active. -/
theorem forced_return_preempts_step (lowTemp : Nat) (rtm step : Option MODE) (s : Core) :
    (∀ nm, rtm = some nm → nm ≠ s.pMode →
      (loop lowTemp rtm step s).pMode = nm ∧
      actsOf (loop lowTemp rtm step) s =
        tickHead lowTemp s.pMode ++
          [Act.switchPower false, Act.write_CCR1 0, Act.mode_init nm] ∧
      (∀ m, Act.mode_loop m ∉ actsOf (loop lowTemp rtm step) s)) ∧
    ((∃ m, Act.mode_loop m ∈ actsOf (loop lowTemp rtm step) s) ↔
      (rtm = none ∨ rtm = some s.pMode)) ∧
    (∀ m, Act.mode_loop m ∈ actsOf (loop lowTemp rtm step) s → m = s.pMode) := by
  have hh : ∀ m, Act.mode_loop m ∉ tickHead lowTemp s.pMode := by
    intro m hv
    rcases mem_tickHead _ _ _ hv with r | r | r <;> simp at r
  by_cases hf : forced rtm s.pMode
  · obtain ⟨nm, e1, e⟩ := loop_forced lowTemp rtm step s hf
    have ea := actsOf_eq (loop lowTemp rtm step) s _ (by rw [e])
    have hno : ∀ m, Act.mode_loop m ∉ actsOf (loop lowTemp rtm step) s := by
      intro m hm
      rw [ea] at hm
      rcases List.mem_append.1 hm with r | r
      · exact hh m r
      · simp at r
    refine ⟨?_, ?_, ?_⟩
    · intro nm2 h2 _
      have en : nm2 = nm := by
        rw [e1] at h2
        exact (Option.some.inj h2).symm
      subst en
      exact ⟨by rw [e], ea, hno⟩
    · constructor
      · rintro ⟨m, hm⟩
        exact absurd hm (hno m)
      · intro hn
        exact absurd hf ((not_forced_iff rtm s.pMode).2 hn)
    · intro m hm
      exact absurd hm (hno m)
  · have hn := (not_forced_iff rtm s.pMode).1 hf
    have hmem : Act.mode_loop s.pMode ∈ actsOf (loop lowTemp rtm step) s ∧
        ∀ m, Act.mode_loop m ∈ actsOf (loop lowTemp rtm step) s → m = s.pMode := by
      by_cases hs : step = some s.pMode
      · rw [actsOf_eq (loop lowTemp rtm step) s _ (by rw [loop_stay lowTemp rtm step s hf hs])]
        refine ⟨by simp, ?_⟩
        intro m hm
        rcases List.mem_append.1 hm with r | r
        · exact absurd r (hh m)
        · simpa using r
      · rw [actsOf_eq (loop lowTemp rtm step) s _
          (by rw [loop_switch lowTemp rtm step s hf hs])]
        refine ⟨by simp, ?_⟩
        intro m hm
        rcases List.mem_append.1 hm with r | r
        · exact absurd r (hh m)
        · simpa using r
    refine ⟨?_, ?_, hmem.2⟩
    · intro nm h1 h2
      exact absurd ((forced_iff rtm s.pMode).2 ⟨nm, h1, h2⟩) hf
    · exact ⟨fun _ => hn, fun _ => ⟨s.pMode, hmem.1⟩⟩

/-- C11: in a tick that reaches the normal step (the forced-return test of
line 116 fails), when `pMode->loop()` returns null the tick calls
`switchPower(false)`, stores 0 to `TIM2->CCR1`, makes `fail` the active mode
and calls its `init`, whatever mode was active, `fail` included. -/
theorem null_step_forces_fail (lowTemp : Nat) (rtm : Option MODE) (s : Core)
    (h : ¬ forced rtm s.pMode) :
    (loop lowTemp rtm none s).pMode = MODE.fail ∧
    (loop lowTemp rtm none s).CCR1 = 0 ∧
    actsOf (loop lowTemp rtm none) s =
      tickHead lowTemp s.pMode ++
        [Act.mode_loop s.pMode, Act.switchPower false, Act.write_CCR1 0,
         Act.mode_init MODE.fail] ∧
    Act.switchPower false ∈ actsOf (loop lowTemp rtm none) s ∧
    Act.mode_init MODE.fail ∈ actsOf (loop lowTemp rtm none) s := by
  have e := loop_switch lowTemp rtm none s h (by simp)
  have ea : actsOf (loop lowTemp rtm none) s =
      tickHead lowTemp s.pMode ++
        [Act.mode_loop s.pMode, Act.switchPower false, Act.write_CCR1 0,
         Act.mode_init MODE.fail] := actsOf_eq _ _ _ (by rw [e]; rfl)
  refine ⟨by rw [e]; rfl, by rw [e], ea, ?_, ?_⟩
  · rw [ea]
    simp
  · rw [ea]
    simp

/-- C11 (witness): the mode `fail` is active, `returnToMain` answers null and
the step answers null. -/
theorem null_step_forces_fail_witness :
    ¬ forced none ({ core0 with pMode := MODE.fail } : Core).pMode ∧
    ((loop 0 none none { core0 with pMode := MODE.fail }).pMode = MODE.fail ∧
    (loop 0 none none { core0 with pMode := MODE.fail }).CCR1 = 0 ∧
    actsOf (loop 0 none none) { core0 with pMode := MODE.fail } =
      tickHead 0 ({ core0 with pMode := MODE.fail } : Core).pMode ++
        [Act.mode_loop ({ core0 with pMode := MODE.fail } : Core).pMode,
         Act.switchPower false, Act.write_CCR1 0, Act.mode_init MODE.fail] ∧
    Act.switchPower false ∈ actsOf (loop 0 none none) { core0 with pMode := MODE.fail } ∧
    Act.mode_init MODE.fail ∈ actsOf (loop 0 none none) { core0 with pMode := MODE.fail }) :=
  ⟨by simp [forced],
   null_step_forces_fail 0 none { core0 with pMode := MODE.fail } (by simp [forced])⟩

/-- C12: whatever the acquisition state, the buffer, the duty and the answers
of the power controller, `adc_mode` is `ADC_IDLE` after
`HAL_ADC_ConvCpltCallback`. -/
theorem completion_returns_to_idle (buff : Buff) (connected : Bool) (power : Nat → Nat)
    (s : Core) :
    (HAL_ADC_ConvCpltCallback buff connected power s).adc_mode = t_ADC_mode.ADC_IDLE ∧
    ∀ m d c, (HAL_ADC_ConvCpltCallback buff connected power
        { s with adc_mode := m, CCR1 := d, check_count := c }).adc_mode =
      t_ADC_mode.ADC_IDLE :=
  ⟨cplt_adc_mode buff connected power s, fun _ _ _ => cplt_adc_mode buff connected power _⟩

/-- C13: on TIM2 a channel-3 event with `TIM2->CCR1 = 0` changes nothing; a
channel-3 event with a nonzero duty does what `adcStart(ADC_CURRENT)` does; a
channel-4 event does what `adcStart(ADC_TEMP)` does, whatever the duty.  From
`ADC_IDLE`, channel 3 leaves `adc_mode = ADC_CURRENT` exactly when the duty
is nonzero and channel 4 always leaves `adc_mode = ADC_TEMP`. -/
theorem timer_events_start_sampling (s : Core) :
    (s.CCR1 = 0 →
      HAL_TIM_OC_DelayElapsedCallback TIM_Instance.TIM2
        HAL_TIM_ActiveChannel.HAL_TIM_ACTIVE_CHANNEL_3 s = s) ∧
    (s.CCR1 ≠ 0 →
      HAL_TIM_OC_DelayElapsedCallback TIM_Instance.TIM2
        HAL_TIM_ActiveChannel.HAL_TIM_ACTIVE_CHANNEL_3 s =
          (adcStart t_ADC_mode.ADC_CURRENT s).2) ∧
    HAL_TIM_OC_DelayElapsedCallback TIM_Instance.TIM2
        HAL_TIM_ActiveChannel.HAL_TIM_ACTIVE_CHANNEL_4 s =
          (adcStart t_ADC_mode.ADC_TEMP s).2 ∧
    (s.adc_mode = t_ADC_mode.ADC_IDLE →
      ((HAL_TIM_OC_DelayElapsedCallback TIM_Instance.TIM2
          HAL_TIM_ActiveChannel.HAL_TIM_ACTIVE_CHANNEL_3 s).adc_mode =
            t_ADC_mode.ADC_CURRENT ↔ s.CCR1 ≠ 0) ∧
      (HAL_TIM_OC_DelayElapsedCallback TIM_Instance.TIM2
          HAL_TIM_ActiveChannel.HAL_TIM_ACTIVE_CHANNEL_4 s).adc_mode =
            t_ADC_mode.ADC_TEMP) := by
  refine ⟨?_, ?_, ?_, ?_⟩
  · intro h
    simp [HAL_TIM_OC_DelayElapsedCallback, h]
  · intro h
    simp [HAL_TIM_OC_DelayElapsedCallback, h]
  · simp [HAL_TIM_OC_DelayElapsedCallback]
  · intro h
    by_cases hd : s.CCR1 = 0
    · simp [HAL_TIM_OC_DelayElapsedCallback, adcStart, h, hd, emit]
    · simp [HAL_TIM_OC_DelayElapsedCallback, adcStart, h, hd, emit]

/-- C19: in a tick in which the forced-return test fails and the step
returns the active mode, the only actions are those of `tickHead` and the
call of `MODE::loop`: no `switchPower`, no store to the duty register and no
`init`; the active mode, the duty, the acquisition state and the probe
counter are unchanged. -/
theorem quiet_tick_changes_nothing (lowTemp : Nat) (rtm step : Option MODE) (s : Core)
    (hr : rtm = none ∨ rtm = some s.pMode) (hs : step = some s.pMode) :
    (loop lowTemp rtm step s).pMode = s.pMode ∧
    (loop lowTemp rtm step s).CCR1 = s.CCR1 ∧
    (loop lowTemp rtm step s).adc_mode = s.adc_mode ∧
    (loop lowTemp rtm step s).check_count = s.check_count ∧
    actsOf (loop lowTemp rtm step) s = tickHead lowTemp s.pMode ++ [Act.mode_loop s.pMode] ∧
    (∀ b, Act.switchPower b ∉ actsOf (loop lowTemp rtm step) s) ∧
    (∀ v, Act.write_CCR1 v ∉ actsOf (loop lowTemp rtm step) s) ∧
    (∀ m, Act.mode_init m ∉ actsOf (loop lowTemp rtm step) s) := by
  have hf : ¬ forced rtm s.pMode := (not_forced_iff rtm s.pMode).2 hr
  have e := loop_stay lowTemp rtm step s hf hs
  have ea : actsOf (loop lowTemp rtm step) s =
      tickHead lowTemp s.pMode ++ [Act.mode_loop s.pMode] := actsOf_eq _ _ _ (by rw [e])
  refine ⟨by rw [e], by rw [e], by rw [e], by rw [e], ea, ?_, ?_, ?_⟩
  · intro b hb
    rw [ea] at hb
    rcases List.mem_append.1 hb with r | r
    · rcases mem_tickHead _ _ _ r with q | q | q <;> simp at q
    · simp at r
  · intro b hb
    rw [ea] at hb
    rcases List.mem_append.1 hb with r | r
    · rcases mem_tickHead _ _ _ r with q | q | q <;> simp at q
    · simp at r
  · intro b hb
    rw [ea] at hb
    rcases List.mem_append.1 hb with r | r
    · rcases mem_tickHead _ _ _ r with q | q | q <;> simp at q
    · simp at r

/-- C19 (witness): from the boot state, `returnToMain` answers null and the
step answers the active mode `standby_iron`. -/
theorem quiet_tick_changes_nothing_witness :
    ((none : Option MODE) = none ∨ (none : Option MODE) = some core0.pMode) ∧
    some MODE.standby_iron = some core0.pMode ∧
    ((loop 1 none (some MODE.standby_iron) core0).pMode = core0.pMode ∧
    (loop 1 none (some MODE.standby_iron) core0).CCR1 = core0.CCR1 ∧
    (loop 1 none (some MODE.standby_iron) core0).adc_mode = core0.adc_mode ∧
    (loop 1 none (some MODE.standby_iron) core0).check_count = core0.check_count ∧
    actsOf (loop 1 none (some MODE.standby_iron)) core0 =
      tickHead 1 core0.pMode ++ [Act.mode_loop core0.pMode] ∧
    (∀ b, Act.switchPower b ∉ actsOf (loop 1 none (some MODE.standby_iron)) core0) ∧
    (∀ v, Act.write_CCR1 v ∉ actsOf (loop 1 none (some MODE.standby_iron)) core0) ∧
    (∀ m, Act.mode_init m ∉ actsOf (loop 1 none (some MODE.standby_iron)) core0)) :=
  ⟨Or.inl rfl, rfl,
   quiet_tick_changes_nothing 1 none (some MODE.standby_iron) core0 (Or.inl rfl) rfl⟩

/-- C14: for all indices `n` and `m` below 16, the boost byte with `n` in
bits 7-4 and `m` in bits 3-0 is a byte, decodes to `(n, m)` again, and its
duration is `(m+1)*5` seconds: 5 for `m = 0`, 10 for `m = 1`, 80 for
`m = 15`. -/
theorem boost_byte_roundtrip (n m : Fin 16) :
    boostEncode n.val m.val < 256 ∧
    boostIncIndex (boostEncode n.val m.val) = n.val ∧
    boostDurIndex (boostEncode n.val m.val) = m.val ∧
    boostDuration (boostEncode n.val m.val) = (m.val + 1) * 5 ∧
    boostDuration (boostEncode n.val 0) = 5 ∧
    boostDuration (boostEncode n.val 1) = 10 ∧
    boostDuration (boostEncode n.val 15) = 80 := by
  revert n m
  decide

/-- C15 (amended): for every startup status the last two actions of `setup`
are `HAL_Delay(500)` and then the `init` of the chosen mode; nothing before
them in `setup` is a delay or an `init`.  So the settle delay comes first and
`init` is the last thing `setup` does. -/
theorem setup_delay_then_init (st : CFG_STATUS) (s : Core) :
    (actsOf (setup st) s).getLast? = some (Act.mode_init (setup st s).pMode) ∧
    (actsOf (setup st) s).dropLast.getLast? = some (Act.HAL_Delay 500) ∧
    (∀ a ∈ (actsOf (setup st) s).dropLast.dropLast,
      (∀ ms, a ≠ Act.HAL_Delay ms) ∧ (∀ m, a ≠ Act.mode_init m)) := by
  cases st <;> simp [actsOf, setup, HW_init, MODE_setup, emit]

/-- C15 (counterexample): booting with the status `CFG_OK`, `setup` calls
`HAL_Delay(500)` before the `init` of `standby_iron`, not after it. -/
theorem setup_init_not_before_delay :
    Act.HAL_Delay 500 ∈ (setup CFG_STATUS.CFG_OK core0).trace ∧
    Act.mode_init MODE.standby_iron ∈ (setup CFG_STATUS.CFG_OK core0).trace ∧
    (setup CFG_STATUS.CFG_OK core0).trace.indexOf (Act.HAL_Delay 500) <
      (setup CFG_STATUS.CFG_OK core0).trace.indexOf (Act.mode_init MODE.standby_iron) ∧
    ¬ ((setup CFG_STATUS.CFG_OK core0).trace.indexOf (Act.mode_init MODE.standby_iron) <
      (setup CFG_STATUS.CFG_OK core0).trace.indexOf (Act.HAL_Delay 500)) := by
  decide

/-- C18: the three averages of the completion callback equal the same
formulas over unbounded naturals (no 32-bit accumulator wraps: the sums plus
the rounding term stay below `2^32`), each lies between the least and the
greatest of the samples it averages, and each is at most 65535. -/
theorem averages_within_samples (buff : Buff) :
    tempLoop buff 0 0 0 =
      (rd buff 1 + rd buff 3 + rd buff 5 + rd buff 7, rd buff 2 + rd buff 6) ∧
    currLoop buff 0 0 = rd buff 0 + rd buff 4 ∧
    rd buff 1 + rd buff 3 + rd buff 5 + rd buff 7 + ADC_LOOPS < 2 ^ 32 ∧
    rd buff 2 + rd buff 6 + ADC_LOOPS / 2 < 2 ^ 32 ∧
    rd buff 0 + rd buff 4 + ADC_LOOPS / 2 < 2 ^ 32 ∧
    (tempAverages buff).1 = (rd buff 1 + rd buff 3 + rd buff 5 + rd buff 7 + 2) / 4 ∧
    (tempAverages buff).2 = (rd buff 2 + rd buff 6 + 1) / 2 ∧
    currAverage buff = (rd buff 0 + rd buff 4 + 1) / 2 ∧
    (min (min (rd buff 1) (rd buff 3)) (min (rd buff 5) (rd buff 7)) ≤ (tempAverages buff).1 ∧
      (tempAverages buff).1 ≤ max (max (rd buff 1) (rd buff 3)) (max (rd buff 5) (rd buff 7))) ∧
    (min (rd buff 2) (rd buff 6) ≤ (tempAverages buff).2 ∧
      (tempAverages buff).2 ≤ max (rd buff 2) (rd buff 6)) ∧
    (min (rd buff 0) (rd buff 4) ≤ currAverage buff ∧
      currAverage buff ≤ max (rd buff 0) (rd buff 4)) ∧
    (tempAverages buff).1 ≤ 65535 ∧ (tempAverages buff).2 ≤ 65535 ∧
    currAverage buff ≤ 65535 := by
  have h0 := rd_lt buff 0
  have h1 := rd_lt buff 1
  have h2 := rd_lt buff 2
  have h3 := rd_lt buff 3
  have h4 := rd_lt buff 4
  have h5 := rd_lt buff 5
  have h6 := rd_lt buff 6
  have h7 := rd_lt buff 7
  have ht := tempAverages_eq buff
  have hc := currAverage_eq buff
  have hl : ADC_LOOPS = 2 := rfl
  refine ⟨tempLoop_eq buff, currLoop_eq buff, ?_, ?_, ?_, by rw [ht], by rw [ht], hc,
    ⟨?_, ?_⟩, ⟨?_, ?_⟩, ⟨?_, ?_⟩, ?_, ?_, ?_⟩
  · rw [hl]; omega
  · rw [hl]; omega
  · rw [hl]; omega
  · rw [ht]; omega
  · rw [ht]; omega
  · rw [ht]; omega
  · rw [ht]; omega
  · rw [hc]; omega
  · rw [hc]; omega
  · rw [ht]; omega
  · rw [ht]; omega
  · rw [hc]; omega

theorem dutyAfter_le (M : Nat) (tr : List Act) (d : Nat) (hd : d ≤ M)
    (h : ∀ v, Act.write_CCR1 v ∈ tr → v ≤ M) : dutyAfter d tr ≤ M := by
  induction tr generalizing d with
  | nil => simpa [dutyAfter] using hd
  | cons a tr ih =>
    have h2 : ∀ v, Act.write_CCR1 v ∈ tr → v ≤ M := fun v hv => h v (List.mem_cons_of_mem _ hv)
    cases a with
    | write_CCR1 w =>
      have e : dutyAfter d (Act.write_CCR1 w :: tr) = dutyAfter w tr := by simp [dutyAfter]
      rw [e]
      exact ih w (h w (List.mem_cons_self _ _)) h2
    | _ =>
      exact ih d hd h2

theorem tim_effect (inst : TIM_Instance) (ch : HAL_TIM_ActiveChannel) (s : Core) :
    ((Event.tim inst ch).apply s).check_count = s.check_count ∧
    ∃ tr, ((Event.tim inst ch).apply s).trace = s.trace ++ tr ∧
      ((Event.tim inst ch).apply s).CCR1 = dutyAfter s.CCR1 tr ∧
      (∀ v, Act.write_CCR1 v ∈ tr → v = 0) := by
  have hz : ∃ tr, (set_CCR1 0 s).trace = s.trace ++ tr ∧
      (set_CCR1 0 s).CCR1 = dutyAfter s.CCR1 tr ∧ (∀ v, Act.write_CCR1 v ∈ tr → v = 0) :=
    ⟨[Act.write_CCR1 0], by simp [set_CCR1, emit], by simp [dutyAfter, set_CCR1, emit],
      by simp⟩
  have hn : ∃ tr, s.trace = s.trace ++ tr ∧ s.CCR1 = dutyAfter s.CCR1 tr ∧
      (∀ v, Act.write_CCR1 v ∈ tr → v = 0) :=
    ⟨[], by simp, by simp [dutyAfter], by simp⟩
  have hs : ∀ m : t_ADC_mode, ∃ tr,
      ({ emit (Act.HAL_ADCEx_MultiModeStart_DMA (ADC_CONV * ADC_LOOPS))
          (emit Act.HAL_ADC_Start s) with adc_mode := m } : Core).trace = s.trace ++ tr ∧
      ({ emit (Act.HAL_ADCEx_MultiModeStart_DMA (ADC_CONV * ADC_LOOPS))
          (emit Act.HAL_ADC_Start s) with adc_mode := m } : Core).CCR1 =
        dutyAfter s.CCR1 tr ∧
      (∀ v, Act.write_CCR1 v ∈ tr → v = 0) := fun m =>
    ⟨[Act.HAL_ADC_Start, Act.HAL_ADCEx_MultiModeStart_DMA (ADC_CONV * ADC_LOOPS)],
      by simp [emit], by simp [dutyAfter, emit], by simp⟩
  simp only [Event.apply, HAL_TIM_OC_DelayElapsedCallback, adcStart]
  split_ifs
  · exact ⟨rfl, hz⟩
  · exact ⟨rfl, hs _⟩
  · exact ⟨rfl, hn⟩
  · exact ⟨rfl, hz⟩
  · exact ⟨rfl, hs _⟩
  · exact ⟨rfl, hn⟩
  · exact ⟨rfl, hn⟩

theorem cplt_idle (buff : Buff) (connected : Bool) (power : Nat → Nat) (s : Core)
    (h : s.adc_mode = t_ADC_mode.ADC_IDLE) :
    HAL_ADC_ConvCpltCallback buff connected power s =
      { s with adc_mode := t_ADC_mode.ADC_IDLE,
               trace := s.trace ++ [Act.HAL_ADCEx_MultiModeStop_DMA, Act.HAL_ADC_Stop] } := by
  simp [HAL_ADC_ConvCpltCallback, h, emit]

theorem checkProbe_snd_le (c : Nat) : (checkProbe c).2 ≤ max_iron_pwm := by
  rw [checkProbe_snd]
  split
  · decide
  · exact Nat.zero_le _

theorem cplt_effect (buff : Buff) (connected : Bool) (power : Nat → Nat) (s : Core) :
    (HAL_ADC_ConvCpltCallback buff connected power s).check_count =
      (if s.adc_mode = t_ADC_mode.ADC_TEMP then (checkProbe s.check_count).1
       else s.check_count) ∧
    ∃ tr, (HAL_ADC_ConvCpltCallback buff connected power s).trace = s.trace ++ tr ∧
      (HAL_ADC_ConvCpltCallback buff connected power s).CCR1 = dutyAfter s.CCR1 tr ∧
      (∀ v, Act.write_CCR1 v ∈ tr → v ≤ max_iron_pwm) := by
  have hcases : s.adc_mode = t_ADC_mode.ADC_TEMP ∨ s.adc_mode = t_ADC_mode.ADC_CURRENT ∨
      s.adc_mode = t_ADC_mode.ADC_IDLE := by
    cases s.adc_mode <;> simp
  rcases hcases with h | h | h
  · rw [cplt_temp buff connected power s h, if_pos h]
    refine ⟨rfl, _, rfl, ?_, ?_⟩
    · simp [dutyAfter_append, dutyAfter]
    · intro v hv
      have hb := (dutyWith_bounds (checkProbe s.check_count).2 ⟨buff, connected, power⟩
        (checkProbe_snd_le s.check_count)).2
      cases connected <;> simp at hv <;> rw [hv] <;> exact hb
  · have hne : ¬ s.adc_mode = t_ADC_mode.ADC_TEMP := by rw [h]; decide
    rw [cplt_current buff connected power s h, if_neg hne]
    refine ⟨rfl, _, rfl, ?_, ?_⟩
    · by_cases hd : s.CCR1 = 0 <;> simp [dutyAfter, hd]
    · intro v hv
      by_cases hd : s.CCR1 = 0 <;> simp [hd] at hv
  · have hne : ¬ s.adc_mode = t_ADC_mode.ADC_TEMP := by rw [h]; decide
    rw [cplt_idle buff connected power s h, if_neg hne]
    exact ⟨rfl, _, rfl, by simp [dutyAfter], by simp⟩

theorem apply_effect (e : Event) (s : Core) :
    ∃ tr, (e.apply s).trace = s.trace ++ tr ∧ (e.apply s).CCR1 = dutyAfter s.CCR1 tr ∧
      (∀ v, Act.write_CCR1 v ∈ tr → v ≤ max_iron_pwm) := by
  cases e with
  | tim inst ch =>
    obtain ⟨_, tr, h1, h2, h3⟩ := tim_effect inst ch s
    exact ⟨tr, h1, h2, fun v hv => by rw [h3 v hv]; exact Nat.zero_le _⟩
  | cplt b c p =>
    obtain ⟨_, tr, h1, h2, h3⟩ := cplt_effect b c p s
    exact ⟨tr, h1, h2, h3⟩
  | tick l r st =>
    obtain ⟨_, _, _, tr, h1, h2, h3, _⟩ := loop_effect l r st s
    exact ⟨tr, h1, h2, fun v hv => by rw [h3 v hv]; exact Nat.zero_le _⟩

theorem run_effect (evs : List Event) (s : Core) :
    ∃ tr, (run evs s).trace = s.trace ++ tr ∧ (run evs s).CCR1 = dutyAfter s.CCR1 tr ∧
      (∀ v, Act.write_CCR1 v ∈ tr → v ≤ max_iron_pwm) := by
  induction evs generalizing s with
  | nil => exact ⟨[], by simp [run], by simp [run, dutyAfter], by simp⟩
  | cons e evs ih =>
    obtain ⟨tr1, a1, a2, a3⟩ := apply_effect e s
    obtain ⟨tr2, b1, b2, b3⟩ := ih (e.apply s)
    rw [run_cons]
    refine ⟨tr1 ++ tr2, by rw [b1, a1, List.append_assoc], by rw [b2, a2, dutyAfter_append], ?_⟩
    intro v hv
    rcases List.mem_append.1 hv with r | r
    · exact a3 v r
    · exact b3 v r

/-- C16: starting with the duty register at 0, after every sequence of
events (timer events, completions with any buffer, any connectivity report
and any `power` answer, ticks) and after every prefix of it, `TIM2->CCR1` is
at most `max_iron_pwm = 1960`; every value the run stores to the register
is at most `max_iron_pwm`. -/
theorem duty_never_exceeds_max (evs : List Event) (s : Core) (h : s.CCR1 = 0) :
    (run evs s).CCR1 ≤ max_iron_pwm ∧
    (∀ pre post, evs = pre ++ post → (run pre s).CCR1 ≤ max_iron_pwm) ∧
    (∀ v, Act.write_CCR1 v ∈ actsOf (run evs) s → v ≤ max_iron_pwm) := by
  have key : ∀ l : List Event, (run l s).CCR1 ≤ max_iron_pwm := by
    intro l
    obtain ⟨tr, _, h2, h3⟩ := run_effect l s
    rw [h2]
    exact dutyAfter_le max_iron_pwm tr s.CCR1 (by rw [h]; exact Nat.zero_le _) h3
  refine ⟨key evs, fun pre _ _ => key pre, ?_⟩
  obtain ⟨tr, h1, _, h3⟩ := run_effect evs s
  rw [actsOf_eq _ _ _ h1]
  exact h3

/-- C16 (witness): from the boot state, a temperature cycle in which `power`
answers 65535, a channel-A event, a channel-B event and a tick. -/
theorem duty_never_exceeds_max_witness :
    core0.CCR1 = 0 ∧
    ((run [chanB, Event.cplt exBuff true (fun _ => 65535), chanA, chanB,
        Event.tick 0 none none] core0).CCR1 ≤ max_iron_pwm ∧
    (∀ pre post, [chanB, Event.cplt exBuff true (fun _ => 65535), chanA, chanB,
        Event.tick 0 none none] = pre ++ post → (run pre core0).CCR1 ≤ max_iron_pwm) ∧
    (∀ v, Act.write_CCR1 v ∈ actsOf (run [chanB, Event.cplt exBuff true (fun _ => 65535),
        chanA, chanB, Event.tick 0 none none]) core0 → v ≤ max_iron_pwm)) :=
  ⟨rfl, duty_never_exceeds_max _ core0 rfl⟩

theorem checkProbe_inv (c : Nat) (h1 : 1 ≤ c) (h2 : c ≤ check_period) :
    1 ≤ (checkProbe c).1 ∧ (checkProbe c).1 ≤ check_period ∧
    (c = 1 → (checkProbe c).1 = check_period ∧ (checkProbe c).2 = check_iron_pwm) ∧
    (c ≠ 1 → (checkProbe c).1 = c - 1 ∧ (checkProbe c).2 = 0) := by
  rw [checkProbe_fst, checkProbe_snd]
  unfold check_period at *
  unfold check_iron_pwm
  have hm : (c + 255) % 256 = c - 1 := by omega
  rw [hm]
  by_cases hc : c = 1
  · subst hc
    simp
  · have hz : ¬ (c - 1 = 0) := by omega
    rw [if_neg hz, if_neg hz]
    exact ⟨by omega, by omega, fun h => absurd h hc, fun _ => ⟨rfl, rfl⟩⟩

theorem apply_check_count (e : Event) (s : Core) :
    (e.apply s).check_count = s.check_count ∨
    ((∃ b c p, e = Event.cplt b c p) ∧ s.adc_mode = t_ADC_mode.ADC_TEMP ∧
      (e.apply s).check_count = (checkProbe s.check_count).1) := by
  cases e with
  | tim inst ch => exact Or.inl (tim_effect inst ch s).1
  | tick l r st => exact Or.inl (loop_effect l r st s).2.1
  | cplt b c p =>
    have h := (cplt_effect b c p s).1
    by_cases ht : s.adc_mode = t_ADC_mode.ADC_TEMP
    · rw [if_pos ht] at h
      exact Or.inr ⟨⟨b, c, p, rfl⟩, ht, h⟩
    · rw [if_neg ht] at h
      exact Or.inl h

theorem apply_inv (e : Event) (s : Core) (h1 : 1 ≤ s.check_count)
    (h2 : s.check_count ≤ check_period) :
    1 ≤ (e.apply s).check_count ∧ (e.apply s).check_count ≤ check_period := by
  rcases apply_check_count e s with h | ⟨_, _, h⟩
  · rw [h]
    exact ⟨h1, h2⟩
  · rw [h]
    exact ⟨(checkProbe_inv _ h1 h2).1, (checkProbe_inv _ h1 h2).2.1⟩

theorem run_inv (evs : List Event) (s : Core) (h1 : 1 ≤ s.check_count)
    (h2 : s.check_count ≤ check_period) :
    1 ≤ (run evs s).check_count ∧ (run evs s).check_count ≤ check_period := by
  induction evs generalizing s with
  | nil => exact ⟨h1, h2⟩
  | cons e evs ih =>
    rw [run_cons]
    exact ih _ (apply_inv e s h1 h2).1 (apply_inv e s h1 h2).2

theorem probeLog_cons_skip (e : Event) (es : List Event) (s : Core)
    (h : (∀ b c p, e ≠ Event.cplt b c p) ∨ s.adc_mode ≠ t_ADC_mode.ADC_TEMP) :
    probeLog (e :: es) s = probeLog es (e.apply s) ∧
      (e.apply s).check_count = s.check_count := by
  have hc : (e.apply s).check_count = s.check_count := by
    rcases apply_check_count e s with r | ⟨⟨b, c, p, r1⟩, r2, _⟩
    · exact r
    · rcases h with h | h
      · exact absurd r1 (h b c p)
      · exact absurd r2 h
  refine ⟨?_, hc⟩
  cases e with
  | tim inst ch => rfl
  | tick l r st => rfl
  | cplt b c p =>
    rcases h with h | h
    · exact absurd rfl (h b c p)
    · simp [probeLog, h]

theorem probeLog_cons_temp (b : Buff) (c : Bool) (p : Nat → Nat) (es : List Event) (s : Core)
    (h : s.adc_mode = t_ADC_mode.ADC_TEMP) :
    probeLog (Event.cplt b c p :: es) s =
      decide ((checkProbe s.check_count).2 = check_iron_pwm) ::
        probeLog es ((Event.cplt b c p).apply s) ∧
    ((Event.cplt b c p).apply s).check_count = (checkProbe s.check_count).1 := by
  refine ⟨by simp [probeLog, h], ?_⟩
  have hh := (cplt_effect b c p s).1
  rw [if_pos h] at hh
  exact hh

theorem probeLog_split (e : Event) (es : List Event) (s : Core) :
    (probeLog (e :: es) s = probeLog es (e.apply s) ∧
      (e.apply s).check_count = s.check_count) ∨
    (probeLog (e :: es) s =
      decide ((checkProbe s.check_count).2 = check_iron_pwm) :: probeLog es (e.apply s) ∧
      (e.apply s).check_count = (checkProbe s.check_count).1) := by
  by_cases ht : s.adc_mode = t_ADC_mode.ADC_TEMP
  · cases e with
    | tim inst ch => exact Or.inl (probeLog_cons_skip _ es s (Or.inl (by intro _ _ _ c; cases c)))
    | tick l r st => exact Or.inl (probeLog_cons_skip _ es s (Or.inl (by intro _ _ _ c; cases c)))
    | cplt b c p => exact Or.inr (probeLog_cons_temp b c p es s ht)
  · exact Or.inl (probeLog_cons_skip e es s (Or.inr ht))

theorem probeLog_next_probe (evs : List Event) (s : Core) (h1 : 1 ≤ s.check_count)
    (h2 : s.check_count ≤ check_period)
    (hl : s.check_count ≤ (probeLog evs s).length) :
    (probeLog evs s)[s.check_count - 1]? = some true := by
  induction evs generalizing s with
  | nil =>
    simp [probeLog] at hl
    omega
  | cons e es ih =>
    rcases probeLog_split e es s with ⟨k1, k2⟩ | ⟨k1, k2⟩
    · rw [k1] at hl ⊢
      have := ih (e.apply s) (by rw [k2]; exact h1) (by rw [k2]; exact h2) (by rw [k2]; exact hl)
      rw [k2] at this
      exact this
    · obtain ⟨i1, i2, i3, i4⟩ := checkProbe_inv s.check_count h1 h2
      rw [k1] at hl ⊢
      by_cases hc : s.check_count = 1
      · rw [(i3 hc).2, hc]
        simp
      · obtain ⟨j1, j2⟩ := i4 hc
        have hlen : (e.apply s).check_count ≤ (probeLog es (e.apply s)).length := by
          rw [k2, j1]
          simp only [List.length_cons] at hl
          omega
        have := ih (e.apply s) (by rw [k2]; exact i1) (by rw [k2]; exact i2) hlen
        rw [k2, j1] at this
        have hidx : s.check_count - 1 = (s.check_count - 1 - 1) + 1 := by omega
        rw [hidx, List.getElem?_cons_succ]
        exact this

theorem probeLog_drop (evs : List Event) (s : Core) (i : Nat) (h1 : 1 ≤ s.check_count)
    (h2 : s.check_count ≤ check_period) (hi : i ≤ (probeLog evs s).length) :
    ∃ evs2 s2, 1 ≤ s2.check_count ∧ s2.check_count ≤ check_period ∧
      (probeLog evs s).drop i = probeLog evs2 s2 := by
  induction evs generalizing s i with
  | nil => exact ⟨[], s, h1, h2, by simp [probeLog]⟩
  | cons e es ih =>
    obtain ⟨a1, a2⟩ := apply_inv e s h1 h2
    rcases probeLog_split e es s with ⟨k1, _⟩ | ⟨k1, _⟩
    · rw [k1] at hi ⊢
      exact ih (e.apply s) i a1 a2 hi
    · cases i with
      | zero => exact ⟨e :: es, s, h1, h2, by simp⟩
      | succ j =>
        rw [k1] at hi ⊢
        simp only [List.length_cons] at hi
        rw [List.drop_succ_cons]
        exact ih (e.apply s) j a1 a2 (by omega)

/-- C17: in every state reached from the boot state (`check_count = 1`) by a
sequence of events, `1 <= check_count <= check_period`, so the pre-decrement
modulo 256 is the plain `check_count - 1`; and among any `check_period`
consecutive temperature completions of a run at least one is a probe
cycle. -/
theorem probe_counter_invariant (evs : List Event) :
    (∀ pre post, evs = pre ++ post →
      1 ≤ (run pre core0).check_count ∧ (run pre core0).check_count ≤ check_period ∧
      ((run pre core0).check_count + 255) % 256 = (run pre core0).check_count - 1) ∧
    (∀ i, i + check_period ≤ (probeLog evs core0).length →
      true ∈ ((probeLog evs core0).drop i).take check_period) := by
  have b1 : 1 ≤ core0.check_count := by decide
  have b2 : core0.check_count ≤ check_period := by decide
  constructor
  · intro pre _ _
    obtain ⟨r1, r2⟩ := run_inv pre core0 b1 b2
    refine ⟨r1, r2, ?_⟩
    unfold check_period at r2
    omega
  · intro i hi
    obtain ⟨evs2, s2, c1, c2, e⟩ := probeLog_drop evs core0 i b1 b2 (by omega)
    have hlen : check_period ≤ (probeLog evs2 s2).length := by
      rw [← e, List.length_drop]
      omega
    have hp := probeLog_next_probe evs2 s2 c1 c2 (le_trans c2 hlen)
    rw [e]
    have hlt : s2.check_count - 1 < check_period := by omega
    have ht : ((probeLog evs2 s2).take check_period)[s2.check_count - 1]? = some true := by
      rw [List.getElem?_take_of_lt hlt]
      exact hp
    exact List.getElem?_mem ht

end HakkoT12
